import Mathlib

/-
  Verification development for the squircle geometry engine
  (src/core/squircleMath.ts of expo-squircle-view).

  The TypeScript source is shallowly embedded over the real numbers.
  JavaScript numbers are modelled as ℝ; possible NaN propagation (the
  only NaN source in this code is division) is modelled by a parallel
  pipeline over `Option ℝ` in which `none` stands for NaN and division
  by zero yields `none`.  Emitted SVG path strings are modelled as token
  lists where interpolated numbers are `ℝ` tokens and the literal text
  chunks of the template strings are string tokens (whitespace is
  normalised away; no claim concerns whitespace).
-/

noncomputable section

namespace SquircleSpec

/-- Model of JavaScript `Number.prototype.toFixed(digits)` read back as a
real number: round the magnitude half-up at `digits` decimal digits,
keeping the sign (ECMA-262 chooses the larger candidate on ties, applied
to the magnitude after extracting the sign). -/
def jsToFixed (digits : ℕ) (x : ℝ) : ℝ :=
  if x < 0 then -(((round ((10 ^ digits : ℝ) * (-x)) : ℤ) : ℝ) / 10 ^ digits)
  else ((round ((10 ^ digits : ℝ) * x) : ℤ) : ℝ) / 10 ^ digits

/-- A real number is exactly representable with 4 decimal digits. -/
def isRound4 (x : ℝ) : Prop := ∃ n : ℤ, x = (n : ℝ) / 10 ^ 4

/-! ### NaN-propagating arithmetic over `Option ℝ`

`none` models NaN.  Arithmetic on `none` yields `none`; division by zero
yields `none` (in JavaScript `x/0` is `±Infinity` for `x ≠ 0` and `NaN`
for `0/0`; under the preconditions proved below no division by zero
happens at all, so collapsing `Infinity` into `none` is a sound
over-approximation).  Comparisons against NaN are `false`, as in
JavaScript. -/

def oadd : Option ℝ → Option ℝ → Option ℝ
  | some a, some b => some (a + b)
  | _, _ => none

def osub : Option ℝ → Option ℝ → Option ℝ
  | some a, some b => some (a - b)
  | _, _ => none

def omul : Option ℝ → Option ℝ → Option ℝ
  | some a, some b => some (a * b)
  | _, _ => none

def odiv : Option ℝ → Option ℝ → Option ℝ
  | some a, some b => if b = 0 then none else some (a / b)
  | _, _ => none

def oneg : Option ℝ → Option ℝ
  | some a => some (-a)
  | none => none

def omin : Option ℝ → Option ℝ → Option ℝ
  | some a, some b => some (min a b)
  | _, _ => none

def osin : Option ℝ → Option ℝ
  | some a => some (Real.sin a)
  | none => none

def ocos : Option ℝ → Option ℝ
  | some a => some (Real.cos a)
  | none => none

def otan : Option ℝ → Option ℝ
  | some a => some (Real.tan a)
  | none => none

/-- JavaScript `x <= y` for a possibly-NaN left operand (`NaN <= y` is false). -/
def oleb (x : Option ℝ) (y : ℝ) : Bool :=
  match x with
  | some a => decide (a ≤ y)
  | none => false

/-- JavaScript `x >= y` for a possibly-NaN left operand. -/
def ogeb (x : Option ℝ) (y : ℝ) : Bool :=
  match x with
  | some a => decide (y ≤ a)
  | none => false

/-- JavaScript `x === y` for a possibly-NaN left operand (`NaN === y` is false). -/
def oeqb (x : Option ℝ) (y : ℝ) : Bool :=
  match x with
  | some a => decide (a = y)
  | none => false

/-- JavaScript `x > y` on possibly-NaN operands. -/
def ogtb : Option ℝ → Option ℝ → Bool
  | some a, some b => decide (b < a)
  | _, _ => false

/-- JavaScript truthiness of a possibly-NaN number (`NaN` and `0` are falsy). -/
def otruthy : Option ℝ → Bool
  | some a => decide (a ≠ 0)
  | none => false

/-! ### Core data model -/

inductive CornerId where
  | topLeft
  | topRight
  | bottomLeft
  | bottomRight
deriving DecidableEq, Repr

inductive EdgeOrientation where
  | top
  | bottom
  | left
  | right
deriving DecidableEq, Repr

/-- Length of the box edge with the given orientation. -/
def sideLen : EdgeOrientation → ℝ → ℝ → ℝ
  | .top, w, _ => w
  | .bottom, w, _ => w
  | .left, _, h => h
  | .right, _, h => h

/-- The five bezier distances plus echoed radius and arc chord length
(`BezierPatch` of types.ts). -/
structure BezierPatch where
  a : ℝ
  b : ℝ
  c : ℝ
  d : ℝ
  p : ℝ
  cornerRadius : ℝ
  arcSectionLength : ℝ

/-- The all-zero degenerate profile returned for `radius ≤ 0` or `budget ≤ 0`. -/
def zeroPatch : BezierPatch := ⟨0, 0, 0, 0, 0, 0, 0⟩

/-- NaN-aware variant of `BezierPatch` for the shadow pipeline. -/
structure OBezierPatch where
  a : Option ℝ
  b : Option ℝ
  c : Option ℝ
  d : Option ℝ
  p : Option ℝ
  cornerRadius : Option ℝ
  arcSectionLength : Option ℝ

/-- Injection of a NaN-free patch into the NaN-aware world. -/
def patchToO (x : BezierPatch) : OBezierPatch :=
  ⟨some x.a, some x.b, some x.c, some x.d, some x.p, some x.cornerRadius,
    some x.arcSectionLength⟩

/-- Normalized radius/budget pair for one corner (`CornerProfile` of types.ts). -/
structure CornerProfile where
  radius : ℝ
  roundingAndSmoothingBudget : ℝ

/-! ### computeCornerProfile (squircleMath.ts lines 323-399, cache stripped;
the cached wrapper is `computeCornerProfileCached` below) -/

/-- Model of `degToRad` of squircleMath.ts. -/
def degToRad (degrees : ℝ) : ℝ := degrees * Real.pi / 180

/-- The smoothing factor actually used by `computeCornerProfile` after the
non-preserving clamp `cornerSmoothing = Math.min(cornerSmoothing,
roundingAndSmoothingBudget / cornerRadius - 1)`. -/
def effectiveSmoothing (cornerRadius cornerSmoothing : ℝ) (preserveSmoothing : Bool)
    (roundingAndSmoothingBudget : ℝ) : ℝ :=
  if preserveSmoothing then cornerSmoothing
  else min cornerSmoothing (roundingAndSmoothingBudget / cornerRadius - 1)

/-- The internal `arcMeasure = 90 * (1 - cornerSmoothing)` of
`computeCornerProfile`, in terms of the effective smoothing. -/
def arcMeasureOf (cornerRadius cornerSmoothing : ℝ) (preserveSmoothing : Bool)
    (roundingAndSmoothingBudget : ℝ) : ℝ :=
  90 * (1 - effectiveSmoothing cornerRadius cornerSmoothing preserveSmoothing
    roundingAndSmoothingBudget)

/-- Pure geometry of `computeCornerProfile` (squircleMath.ts lines 340-395). -/
def computeCornerProfile (cornerRadius cornerSmoothing : ℝ) (preserveSmoothing : Bool)
    (roundingAndSmoothingBudget : ℝ) : BezierPatch :=
  if cornerRadius ≤ 0 ∨ roundingAndSmoothingBudget ≤ 0 then zeroPatch
  else
    let p0 := (1 + cornerSmoothing) * cornerRadius
    let s := effectiveSmoothing cornerRadius cornerSmoothing preserveSmoothing
      roundingAndSmoothingBudget
    let p1 := if preserveSmoothing then p0 else min p0 roundingAndSmoothingBudget
    let arcMeasure := 90 * (1 - s)
    let arcSectionLength := Real.sin (degToRad (arcMeasure / 2)) * cornerRadius * Real.sqrt 2
    let angleAlpha := (90 - arcMeasure) / 2
    let p3ToP4Distance := cornerRadius * Real.tan (degToRad (angleAlpha / 2))
    let angleBeta := 45 * s
    let c := p3ToP4Distance * Real.cos (degToRad angleBeta)
    let d := c * Real.tan (degToRad angleBeta)
    let b0 := (p1 - arcSectionLength - c - d) / 3
    let a0 := 2 * b0
    if preserveSmoothing ∧ roundingAndSmoothingBudget < p1 then
      let p1ToP3MaxDistance := roundingAndSmoothingBudget - d - arcSectionLength - c
      let minA := p1ToP3MaxDistance / 6
      let maxB := p1ToP3MaxDistance - minA
      let b1 := min b0 maxB
      let a1 := p1ToP3MaxDistance - b1
      ⟨a1, b1, c, d, min p1 roundingAndSmoothingBudget, cornerRadius, arcSectionLength⟩
    else ⟨a0, b0, c, d, p1, cornerRadius, arcSectionLength⟩

/-- NaN-aware shadow of `computeCornerProfile`: every arithmetic step of the
source is performed in the NaN-propagating operations, and every comparison
uses the JavaScript comparison semantics on possibly-NaN values. -/
def computeCornerProfileO (cornerRadius : Option ℝ) (cornerSmoothing : ℝ)
    (preserveSmoothing : Bool) (roundingAndSmoothingBudget : Option ℝ) : OBezierPatch :=
  if oleb cornerRadius 0 || oleb roundingAndSmoothingBudget 0 then patchToO zeroPatch
  else
    let p0 := omul (oadd (some 1) (some cornerSmoothing)) cornerRadius
    let s := if preserveSmoothing then some cornerSmoothing
      else omin (some cornerSmoothing)
        (osub (odiv roundingAndSmoothingBudget cornerRadius) (some 1))
    let p1 := if preserveSmoothing then p0 else omin p0 roundingAndSmoothingBudget
    let arcMeasure := omul (some 90) (osub (some 1) s)
    let degToRadO : Option ℝ → Option ℝ := fun x => odiv (omul x (some Real.pi)) (some 180)
    let arcSectionLength :=
      omul (omul (osin (degToRadO (odiv arcMeasure (some 2)))) cornerRadius)
        (some (Real.sqrt 2))
    let angleAlpha := odiv (osub (some 90) arcMeasure) (some 2)
    let p3ToP4Distance := omul cornerRadius (otan (degToRadO (odiv angleAlpha (some 2))))
    let angleBeta := omul (some 45) s
    let c := omul p3ToP4Distance (ocos (degToRadO angleBeta))
    let d := omul c (otan (degToRadO angleBeta))
    let b0 := odiv (osub (osub (osub p1 arcSectionLength) c) d) (some 3)
    let a0 := omul (some 2) b0
    if preserveSmoothing && ogtb p1 roundingAndSmoothingBudget then
      let p1ToP3MaxDistance :=
        osub (osub (osub roundingAndSmoothingBudget d) arcSectionLength) c
      let minA := odiv p1ToP3MaxDistance (some 6)
      let maxB := osub p1ToP3MaxDistance minA
      let b1 := omin b0 maxB
      let a1 := osub p1ToP3MaxDistance b1
      ⟨a1, b1, c, d, omin p1 roundingAndSmoothingBudget, cornerRadius, arcSectionLength⟩
    else ⟨a0, b0, c, d, p1, cornerRadius, arcSectionLength⟩

/-! ### normalizeCorners (squircleMath.ts lines 209-312) -/

/-- Model of `ADJACENT_RELATIONS` of squircleMath.ts: the two neighbours of each
corner with the shared edge, in source order (horizontal edge first). -/
def adjacentRelations : CornerId → (CornerId × EdgeOrientation) × (CornerId × EdgeOrientation)
  | .topLeft => ((.topRight, .top), (.bottomLeft, .left))
  | .topRight => ((.topLeft, .top), (.bottomRight, .right))
  | .bottomLeft => ((.bottomRight, .bottom), (.topLeft, .left))
  | .bottomRight => ((.bottomLeft, .bottom), (.topRight, .right))

/-- Pointwise update of a per-corner map (a JS object property write). -/
def updateCorner {α : Type} (f : CornerId → α) (c : CornerId) (v : α) : CornerId → α :=
  fun x => if x = c then v else f x

/-- One adjacent-edge budget term, the body of the lambda inside
`normalizeCorners` (squircleMath.ts lines 272-287): 0 when both the
snapshot radius and the neighbour's current radius are 0; the remaining
edge length when the neighbour's budget is already resolved; otherwise
the proportional split of the edge. -/
def cornerBudgetTerm (rm bm : CornerId → ℝ) (radius : ℝ)
    (adj : CornerId × EdgeOrientation) (w h : ℝ) : ℝ :=
  if radius = 0 ∧ rm adj.1 = 0 then 0
  else if 0 ≤ bm adj.1 then sideLen adj.2 w h - bm adj.1
  else radius / (radius + rm adj.1) * sideLen adj.2 w h

/-- Processing of one sorted entry of `normalizeCorners`: resolve the
corner's budget as the minimum of its two adjacent-edge terms, then clamp
its radius to the budget. -/
def processCorner (w h : ℝ) (st : (CornerId → ℝ) × (CornerId → ℝ))
    (entry : CornerId × ℝ) : (CornerId → ℝ) × (CornerId → ℝ) :=
  let rel := adjacentRelations entry.1
  let budget := min (cornerBudgetTerm st.1 st.2 entry.2 rel.1 w h)
    (cornerBudgetTerm st.1 st.2 entry.2 rel.2 w h)
  (updateCorner st.1 entry.1 (min entry.2 budget), updateCorner st.2 entry.1 budget)

/-- The radius map entries in object-literal insertion order
(topLeft, topRight, bottomLeft, bottomRight), as `Object.entries` yields
them before sorting. -/
def cornerEntries (tl tr br bl : ℝ) : List (CornerId × ℝ) :=
  [(.topLeft, tl), (.topRight, tr), (.bottomLeft, bl), (.bottomRight, br)]

/-- The JavaScript stable descending sort `entries.sort(([, r1], [, r2]) => r2 - r1)`:
an element is inserted before the first element with a strictly smaller
radius, so ties keep encounter order. -/
def sortedCornerEntries (tl tr br bl : ℝ) : List (CornerId × ℝ) :=
  (cornerEntries tl tr br bl).insertionSort (fun e1 e2 => e2.2 ≤ e1.2)

/-- Initial radius map of `normalizeCorners`. -/
def initialRadiusMap (tl tr br bl : ℝ) : CornerId → ℝ
  | .topLeft => tl
  | .topRight => tr
  | .bottomLeft => bl
  | .bottomRight => br

/-- Model of `normalizeCorners` (squircleMath.ts lines 243-312): process the corners
in descending order of requested radius, with all budgets initialised to
the sentinel -1. -/
def normalizeCorners (tl tr br bl w h : ℝ) : CornerId → CornerProfile :=
  let final := (sortedCornerEntries tl tr br bl).foldl (processCorner w h)
    (initialRadiusMap tl tr br bl, fun _ => (-1 : ℝ))
  fun c => ⟨final.1 c, final.2 c⟩

/-- NaN-aware shadow of `cornerBudgetTerm`, with JavaScript comparison
semantics on the possibly-NaN current maps. -/
def cornerBudgetTermO (rm bm : CornerId → Option ℝ) (radius : ℝ)
    (adj : CornerId × EdgeOrientation) (w h : ℝ) : Option ℝ :=
  if decide (radius = 0) && oeqb (rm adj.1) 0 then some 0
  else if ogeb (bm adj.1) 0 then osub (some (sideLen adj.2 w h)) (bm adj.1)
  else omul (odiv (some radius) (oadd (some radius) (rm adj.1)))
    (some (sideLen adj.2 w h))

/-- NaN-aware shadow of `processCorner`. -/
def processCornerO (w h : ℝ) (st : (CornerId → Option ℝ) × (CornerId → Option ℝ))
    (entry : CornerId × ℝ) : (CornerId → Option ℝ) × (CornerId → Option ℝ) :=
  let rel := adjacentRelations entry.1
  let budget := omin (cornerBudgetTermO st.1 st.2 entry.2 rel.1 w h)
    (cornerBudgetTermO st.1 st.2 entry.2 rel.2 w h)
  (updateCorner st.1 entry.1 (omin (some entry.2) budget),
    updateCorner st.2 entry.1 budget)

/-- NaN-aware shadow of `normalizeCorners`. -/
def normalizeCornersO (tl tr br bl w h : ℝ) : CornerId → Option ℝ × Option ℝ :=
  let final := (sortedCornerEntries tl tr br bl).foldl (processCornerO w h)
    (fun c => some (initialRadiusMap tl tr br bl c), fun _ => some (-1 : ℝ))
  fun c => (final.1 c, final.2 c)

/-! ### Path assembly (squircleMath.ts lines 445-611)

The emitted string is modelled as a token list: each `${...}`
interpolation becomes a `num` token (with `toFixed(4)` applied where the
source routes the value through `formatSegment`, i.e. in the four corner
trace functions), and the literal chunks between interpolations become
`cmd` tokens. A literal minus sign directly prefixing an interpolation
(`-${x}`) is folded into the number token as negation. -/

inductive SvgTok where
  | cmd (s : String)
  | num (x : ℝ)

inductive SvgTokO where
  | cmd (s : String)
  | num (x : Option ℝ)

/-- Injection of NaN-free tokens into the NaN-aware token world. -/
def tokToO : SvgTok → SvgTokO
  | .cmd s => .cmd s
  | .num x => .num (some x)

/-- Model of `traceTopRight` (squircleMath.ts lines 476-494). -/
def traceTopRight (patch : BezierPatch) : List SvgTok :=
  if patch.cornerRadius ≠ 0 then
    [.cmd "c", .num (jsToFixed 4 patch.a), .cmd "0",
      .num (jsToFixed 4 (patch.a + patch.b)), .cmd "0",
      .num (jsToFixed 4 (patch.a + patch.b + patch.c)), .num (jsToFixed 4 patch.d),
      .cmd "a", .num (jsToFixed 4 patch.cornerRadius), .num (jsToFixed 4 patch.cornerRadius),
      .cmd "0 0 1", .num (jsToFixed 4 patch.arcSectionLength),
      .num (jsToFixed 4 patch.arcSectionLength),
      .cmd "c", .num (jsToFixed 4 patch.d), .num (jsToFixed 4 patch.c),
      .num (jsToFixed 4 patch.d), .num (jsToFixed 4 (patch.b + patch.c)),
      .num (jsToFixed 4 patch.d), .num (jsToFixed 4 (patch.a + patch.b + patch.c))]
  else [.cmd "l", .num (jsToFixed 4 patch.p), .cmd "0"]

/-- Model of `traceBottomRight` (squircleMath.ts lines 504-524). -/
def traceBottomRight (patch : BezierPatch) : List SvgTok :=
  if patch.cornerRadius ≠ 0 then
    [.cmd "c 0", .num (jsToFixed 4 patch.a), .cmd "0",
      .num (jsToFixed 4 (patch.a + patch.b)),
      .num (jsToFixed 4 (-patch.d)), .num (jsToFixed 4 (patch.a + patch.b + patch.c)),
      .cmd "a", .num (jsToFixed 4 patch.cornerRadius), .num (jsToFixed 4 patch.cornerRadius),
      .cmd "0 0 1", .num (-(jsToFixed 4 patch.arcSectionLength)),
      .num (jsToFixed 4 patch.arcSectionLength),
      .cmd "c", .num (jsToFixed 4 (-patch.c)), .num (jsToFixed 4 patch.d),
      .num (jsToFixed 4 (-(patch.b + patch.c))), .num (jsToFixed 4 patch.d),
      .num (jsToFixed 4 (-(patch.a + patch.b + patch.c))), .num (jsToFixed 4 patch.d)]
  else [.cmd "l 0", .num (jsToFixed 4 patch.p)]

/-- Model of `traceBottomLeft` (squircleMath.ts lines 534-554). -/
def traceBottomLeft (patch : BezierPatch) : List SvgTok :=
  if patch.cornerRadius ≠ 0 then
    [.cmd "c", .num (jsToFixed 4 (-patch.a)), .cmd "0",
      .num (jsToFixed 4 (-(patch.a + patch.b))), .cmd "0",
      .num (jsToFixed 4 (-(patch.a + patch.b + patch.c))), .num (jsToFixed 4 (-patch.d)),
      .cmd "a", .num (jsToFixed 4 patch.cornerRadius), .num (jsToFixed 4 patch.cornerRadius),
      .cmd "0 0 1", .num (-(jsToFixed 4 patch.arcSectionLength)),
      .num (-(jsToFixed 4 patch.arcSectionLength)),
      .cmd "c", .num (jsToFixed 4 (-patch.d)), .num (jsToFixed 4 (-patch.c)),
      .num (jsToFixed 4 (-patch.d)), .num (jsToFixed 4 (-(patch.b + patch.c))),
      .num (jsToFixed 4 (-patch.d)), .num (jsToFixed 4 (-(patch.a + patch.b + patch.c)))]
  else [.cmd "l", .num (jsToFixed 4 (-patch.p)), .cmd "0"]

/-- Model of `traceTopLeft` (squircleMath.ts lines 564-584). -/
def traceTopLeft (patch : BezierPatch) : List SvgTok :=
  if patch.cornerRadius ≠ 0 then
    [.cmd "c 0", .num (jsToFixed 4 (-patch.a)), .cmd "0",
      .num (jsToFixed 4 (-(patch.a + patch.b))),
      .num (jsToFixed 4 patch.d), .num (jsToFixed 4 (-(patch.a + patch.b + patch.c))),
      .cmd "a", .num (jsToFixed 4 patch.cornerRadius), .num (jsToFixed 4 patch.cornerRadius),
      .cmd "0 0 1", .num (jsToFixed 4 patch.arcSectionLength),
      .num (-(jsToFixed 4 patch.arcSectionLength)),
      .cmd "c", .num (jsToFixed 4 patch.c), .num (jsToFixed 4 (-patch.d)),
      .num (jsToFixed 4 (patch.b + patch.c)), .num (jsToFixed 4 (-patch.d)),
      .num (jsToFixed 4 (patch.a + patch.b + patch.c)), .num (jsToFixed 4 (-patch.d))]
  else [.cmd "l 0", .num (jsToFixed 4 (-patch.p))]

/-- Model of `joinCornerProfiles` (squircleMath.ts lines 445-466).  The `M` and `L`
connector coordinates are raw template interpolations in the source (no
`formatSegment`), so their tokens carry the unrounded values. -/
def joinCornerProfiles (w h : ℝ) (topLeftPathParams topRightPathParams
    bottomLeftPathParams bottomRightPathParams : BezierPatch) : List SvgTok :=
  [SvgTok.cmd "M", .num (w - topRightPathParams.p), .cmd "0"]
    ++ traceTopRight topRightPathParams
    ++ [SvgTok.cmd "L", .num w, .num (h - bottomRightPathParams.p)]
    ++ traceBottomRight bottomRightPathParams
    ++ [SvgTok.cmd "L", .num bottomLeftPathParams.p, .num h]
    ++ traceBottomLeft bottomLeftPathParams
    ++ [SvgTok.cmd "L 0", .num topLeftPathParams.p]
    ++ traceTopLeft topLeftPathParams
    ++ [SvgTok.cmd "Z"]

/-- NaN-aware shadow of `traceTopRight`; the `if (cornerRadius)` truthiness
test is false for NaN, as in JavaScript. -/
def traceTopRightO (patch : OBezierPatch) : List SvgTokO :=
  let f : Option ℝ → Option ℝ := Option.map (jsToFixed 4)
  if otruthy patch.cornerRadius then
    [.cmd "c", .num (f patch.a), .cmd "0",
      .num (f (oadd patch.a patch.b)), .cmd "0",
      .num (f (oadd (oadd patch.a patch.b) patch.c)), .num (f patch.d),
      .cmd "a", .num (f patch.cornerRadius), .num (f patch.cornerRadius),
      .cmd "0 0 1", .num (f patch.arcSectionLength), .num (f patch.arcSectionLength),
      .cmd "c", .num (f patch.d), .num (f patch.c),
      .num (f patch.d), .num (f (oadd patch.b patch.c)),
      .num (f patch.d), .num (f (oadd (oadd patch.a patch.b) patch.c))]
  else [.cmd "l", .num (f patch.p), .cmd "0"]

/-- NaN-aware shadow of `traceBottomRight`. -/
def traceBottomRightO (patch : OBezierPatch) : List SvgTokO :=
  let f : Option ℝ → Option ℝ := Option.map (jsToFixed 4)
  if otruthy patch.cornerRadius then
    [.cmd "c 0", .num (f patch.a), .cmd "0",
      .num (f (oadd patch.a patch.b)),
      .num (f (oneg patch.d)), .num (f (oadd (oadd patch.a patch.b) patch.c)),
      .cmd "a", .num (f patch.cornerRadius), .num (f patch.cornerRadius),
      .cmd "0 0 1", .num (oneg (f patch.arcSectionLength)), .num (f patch.arcSectionLength),
      .cmd "c", .num (f (oneg patch.c)), .num (f patch.d),
      .num (f (oneg (oadd patch.b patch.c))), .num (f patch.d),
      .num (f (oneg (oadd (oadd patch.a patch.b) patch.c))), .num (f patch.d)]
  else [.cmd "l 0", .num (f patch.p)]

/-- NaN-aware shadow of `traceBottomLeft`. -/
def traceBottomLeftO (patch : OBezierPatch) : List SvgTokO :=
  let f : Option ℝ → Option ℝ := Option.map (jsToFixed 4)
  if otruthy patch.cornerRadius then
    [.cmd "c", .num (f (oneg patch.a)), .cmd "0",
      .num (f (oneg (oadd patch.a patch.b))), .cmd "0",
      .num (f (oneg (oadd (oadd patch.a patch.b) patch.c))), .num (f (oneg patch.d)),
      .cmd "a", .num (f patch.cornerRadius), .num (f patch.cornerRadius),
      .cmd "0 0 1", .num (oneg (f patch.arcSectionLength)),
      .num (oneg (f patch.arcSectionLength)),
      .cmd "c", .num (f (oneg patch.d)), .num (f (oneg patch.c)),
      .num (f (oneg patch.d)), .num (f (oneg (oadd patch.b patch.c))),
      .num (f (oneg patch.d)), .num (f (oneg (oadd (oadd patch.a patch.b) patch.c)))]
  else [.cmd "l", .num (f (oneg patch.p)), .cmd "0"]

/-- NaN-aware shadow of `traceTopLeft`. -/
def traceTopLeftO (patch : OBezierPatch) : List SvgTokO :=
  let f : Option ℝ → Option ℝ := Option.map (jsToFixed 4)
  if otruthy patch.cornerRadius then
    [.cmd "c 0", .num (f (oneg patch.a)), .cmd "0",
      .num (f (oneg (oadd patch.a patch.b))),
      .num (f patch.d), .num (f (oneg (oadd (oadd patch.a patch.b) patch.c))),
      .cmd "a", .num (f patch.cornerRadius), .num (f patch.cornerRadius),
      .cmd "0 0 1", .num (f patch.arcSectionLength), .num (oneg (f patch.arcSectionLength)),
      .cmd "c", .num (f patch.c), .num (f (oneg patch.d)),
      .num (f (oadd patch.b patch.c)), .num (f (oneg patch.d)),
      .num (f (oadd (oadd patch.a patch.b) patch.c)), .num (f (oneg patch.d))]
  else [.cmd "l 0", .num (f (oneg patch.p))]

/-- NaN-aware shadow of `joinCornerProfiles`. -/
def joinCornerProfilesO (w h : ℝ) (topLeftPathParams topRightPathParams
    bottomLeftPathParams bottomRightPathParams : OBezierPatch) : List SvgTokO :=
  [SvgTokO.cmd "M", .num (osub (some w) topRightPathParams.p), .cmd "0"]
    ++ traceTopRightO topRightPathParams
    ++ [SvgTokO.cmd "L", .num (some w), .num (osub (some h) bottomRightPathParams.p)]
    ++ traceBottomRightO bottomRightPathParams
    ++ [SvgTokO.cmd "L", .num bottomLeftPathParams.p, .num (some h)]
    ++ traceBottomLeftO bottomLeftPathParams
    ++ [SvgTokO.cmd "L 0", .num topLeftPathParams.p]
    ++ traceTopLeftO topLeftPathParams
    ++ [SvgTokO.cmd "Z"]

/-! ### Entry point, input resolution and the cache-free pipeline -/

/-- Model of `SquirclePathInput` of types.ts, with the entry point's parameter
defaults (`cornerRadius = 0`, `preserveSmoothing = false`) baked into the
structure defaults. -/
structure SquirclePathInput where
  cornerRadius : ℝ := 0
  topLeftCornerRadius : Option ℝ := none
  topRightCornerRadius : Option ℝ := none
  bottomRightCornerRadius : Option ℝ := none
  bottomLeftCornerRadius : Option ℝ := none
  cornerSmoothing : ℝ
  width : ℝ
  height : ℝ
  preserveSmoothing : Bool := false

/-- Resolution `topLeftCornerRadius ?? cornerRadius` (buildSquirclePath line 43). -/
def resolvedTopLeft (i : SquirclePathInput) : ℝ :=
  i.topLeftCornerRadius.getD i.cornerRadius

/-- Resolution `topRightCornerRadius ?? cornerRadius`. -/
def resolvedTopRight (i : SquirclePathInput) : ℝ :=
  i.topRightCornerRadius.getD i.cornerRadius

/-- Resolution `bottomRightCornerRadius ?? cornerRadius`. -/
def resolvedBottomRight (i : SquirclePathInput) : ℝ :=
  i.bottomRightCornerRadius.getD i.cornerRadius

/-- Resolution `bottomLeftCornerRadius ?? cornerRadius`. -/
def resolvedBottomLeft (i : SquirclePathInput) : ℝ :=
  i.bottomLeftCornerRadius.getD i.cornerRadius

/-- The equal-radii guard of buildSquirclePath (lines 65-70). -/
def allRadiiEqual (i : SquirclePathInput) : Prop :=
  resolvedTopLeft i = resolvedTopRight i ∧
    resolvedTopRight i = resolvedBottomRight i ∧
    resolvedBottomRight i = resolvedBottomLeft i ∧
    resolvedBottomLeft i = resolvedTopLeft i

instance (i : SquirclePathInput) : Decidable (allRadiiEqual i) := by
  unfold allRadiiEqual; infer_instance

/-- The degenerate rectangle path
`M ${width} 0 L ${width} ${height} L 0 ${height} L 0 0 Z`
(buildSquirclePath line 72). -/
def rectangleTokens (w h : ℝ) : List SvgTok :=
  [.cmd "M", .num w, .cmd "0 L", .num w, .num h, .cmd "L 0", .num h, .cmd "L 0 0 Z"]

/-- The geometry pipeline of `buildSquirclePath` with both caches bypassed:
the equal-radii fast path or `normalizeCorners`, then `computeCornerProfile`
per corner, then `joinCornerProfiles` (squircleMath.ts lines 65-139 minus
the cache reads/writes). -/
def squirclePipeline (i : SquirclePathInput) : List SvgTok :=
  let tl := resolvedTopLeft i
  let tr := resolvedTopRight i
  let br := resolvedBottomRight i
  let bl := resolvedBottomLeft i
  if allRadiiEqual i then
    if tl = 0 then rectangleTokens i.width i.height
    else
      let budget := min i.width i.height / 2
      let radius := min tl budget
      let pathParams := computeCornerProfile radius i.cornerSmoothing
        i.preserveSmoothing budget
      joinCornerProfiles i.width i.height pathParams pathParams pathParams pathParams
  else
    let corners := normalizeCorners tl tr br bl i.width i.height
    joinCornerProfiles i.width i.height
      (computeCornerProfile (corners .topLeft).radius i.cornerSmoothing
        i.preserveSmoothing (corners .topLeft).roundingAndSmoothingBudget)
      (computeCornerProfile (corners .topRight).radius i.cornerSmoothing
        i.preserveSmoothing (corners .topRight).roundingAndSmoothingBudget)
      (computeCornerProfile (corners .bottomLeft).radius i.cornerSmoothing
        i.preserveSmoothing (corners .bottomLeft).roundingAndSmoothingBudget)
      (computeCornerProfile (corners .bottomRight).radius i.cornerSmoothing
        i.preserveSmoothing (corners .bottomRight).roundingAndSmoothingBudget)

/-- NaN-aware shadow of the cache-free pipeline. -/
def squirclePipelineO (i : SquirclePathInput) : List SvgTokO :=
  let tl := resolvedTopLeft i
  let tr := resolvedTopRight i
  let br := resolvedBottomRight i
  let bl := resolvedBottomLeft i
  if allRadiiEqual i then
    if tl = 0 then (rectangleTokens i.width i.height).map tokToO
    else
      let budget := min i.width i.height / 2
      let radius := min tl budget
      let pathParams := computeCornerProfileO (some radius) i.cornerSmoothing
        i.preserveSmoothing (some budget)
      joinCornerProfilesO i.width i.height pathParams pathParams pathParams pathParams
  else
    let corners := normalizeCornersO tl tr br bl i.width i.height
    joinCornerProfilesO i.width i.height
      (computeCornerProfileO (corners .topLeft).1 i.cornerSmoothing
        i.preserveSmoothing (corners .topLeft).2)
      (computeCornerProfileO (corners .topRight).1 i.cornerSmoothing
        i.preserveSmoothing (corners .topRight).2)
      (computeCornerProfileO (corners .bottomLeft).1 i.cornerSmoothing
        i.preserveSmoothing (corners .bottomLeft).2)
      (computeCornerProfileO (corners .bottomRight).1 i.cornerSmoothing
        i.preserveSmoothing (corners .bottomRight).2)

/-- The `(radius, budget)` parameters of the corner profiles actually used
to assemble the path, per corner: the branch structure of
`buildSquirclePath` (fast symmetric path when all resolved radii are
equal, `normalizeCorners` otherwise). -/
def assembledProfiles (i : SquirclePathInput) : CornerId → BezierPatch :=
  if allRadiiEqual i then
    let budget := min i.width i.height / 2
    let radius := min (resolvedTopLeft i) budget
    fun _ => computeCornerProfile radius i.cornerSmoothing i.preserveSmoothing budget
  else
    let corners := normalizeCorners (resolvedTopLeft i) (resolvedTopRight i)
      (resolvedBottomRight i) (resolvedBottomLeft i) i.width i.height
    fun c => computeCornerProfile (corners c).radius i.cornerSmoothing
      i.preserveSmoothing (corners c).roundingAndSmoothingBudget

/-! ### Caches and the memoized entry point (squircleMath.ts lines 21-23,
48-63, 142-205, 329-338, 350, 397) -/

instance : DecidableEq ℝ := Classical.decEq ℝ

instance : DecidableEq (ℝ × ℝ × ℝ × Bool × ℝ × ℝ × ℝ × ℝ × ℝ) := Classical.decEq _

instance : DecidableEq (ℝ × ℝ × Bool × ℝ) := Classical.decEq _

/-- Insertion-ordered association list modelling a JavaScript `Map`
(head = oldest entry). -/
def lookupEntries {κ α : Type} [DecidableEq κ] : List (κ × α) → κ → Option α
  | [], _ => none
  | e :: rest, k => if e.1 = k then some e.2 else lookupEntries rest k

/-- Model of JavaScript `Map.has`. -/
def containsKey {κ α : Type} [DecidableEq κ] (m : List (κ × α)) (k : κ) : Prop :=
  ∃ v, lookupEntries m k = some v

instance {κ α : Type} [DecidableEq κ] (m : List (κ × α)) (k : κ) :
    Decidable (containsKey m k) := by
  unfold containsKey
  cases lookupEntries m k with
  | none => exact .isFalse (by simp)
  | some v => exact .isTrue ⟨v, rfl⟩

/-- Model of JavaScript `Map.set`: update in place when the key exists, otherwise append at the
end (JavaScript Maps keep insertion order and keep the position of an
updated key). -/
def setEntry {κ α : Type} [DecidableEq κ] : List (κ × α) → κ → α → List (κ × α)
  | [], k, v => [(k, v)]
  | e :: rest, k, v => if e.1 = k then (k, v) :: rest else e :: setEntry rest k v

/-- Constant `PATH_CACHE_LIMIT` (squircleMath.ts line 21). -/
def PATH_CACHE_LIMIT : ℕ := 160

/-- The path-cache key of `composeCacheKey` (squircleMath.ts lines 156-178):
the tuple of the `toFixed`-rounded components, in source order.  Joining
the fixed-decimal component strings with a separator is injective in the
rounded values, so the key is modelled as the tuple itself. -/
def composeCacheKey (i : SquirclePathInput) :
    ℝ × ℝ × ℝ × Bool × ℝ × ℝ × ℝ × ℝ × ℝ :=
  (jsToFixed 2 i.width, jsToFixed 2 i.height, jsToFixed 4 i.cornerSmoothing,
    i.preserveSmoothing, jsToFixed 2 i.cornerRadius,
    jsToFixed 2 (resolvedTopLeft i), jsToFixed 2 (resolvedTopRight i),
    jsToFixed 2 (resolvedBottomRight i), jsToFixed 2 (resolvedBottomLeft i))

/-- The corner-profile cache key of `cornerProfileCacheKey`
(squircleMath.ts lines 410-422). -/
def cornerProfileCacheKey (cornerRadius cornerSmoothing : ℝ)
    (preserveSmoothing : Bool) (roundingAndSmoothingBudget : ℝ) :
    ℝ × ℝ × Bool × ℝ :=
  (jsToFixed 3 cornerRadius, jsToFixed 4 cornerSmoothing, preserveSmoothing,
    jsToFixed 3 roundingAndSmoothingBudget)

/-- A single corner-profile query of `computeCornerProfile`
(`BezierPatchInput` of types.ts). -/
structure BezierPatchInput where
  cornerRadius : ℝ
  cornerSmoothing : ℝ
  preserveSmoothing : Bool
  roundingAndSmoothingBudget : ℝ

/-- The key of a corner-profile query. -/
def profileKey (q : BezierPatchInput) : ℝ × ℝ × Bool × ℝ :=
  cornerProfileCacheKey q.cornerRadius q.cornerSmoothing q.preserveSmoothing
    q.roundingAndSmoothingBudget

/-- The pure profile of a query. -/
def profileOf (q : BezierPatchInput) : BezierPatch :=
  computeCornerProfile q.cornerRadius q.cornerSmoothing q.preserveSmoothing
    q.roundingAndSmoothingBudget

abbrev ProfileCache := List ((ℝ × ℝ × Bool × ℝ) × BezierPatch)

abbrev PathCache := List ((ℝ × ℝ × ℝ × Bool × ℝ × ℝ × ℝ × ℝ × ℝ) × List SvgTok)

/-- Model of `computeCornerProfile` with its memoization (squircleMath.ts lines
329-338, 350, 397): consult the corner-profile cache first, store the
computed profile on a miss (both the degenerate and the general branch
store). -/
def computeCornerProfileCached (q : BezierPatchInput) (pc : ProfileCache) :
    BezierPatch × ProfileCache :=
  match lookupEntries pc (profileKey q) with
  | some cached => (cached, pc)
  | none => (profileOf q, setEntry pc (profileKey q) (profileOf q))

/-- Model of `storeCachedPath` (squircleMath.ts lines 197-205): evict the oldest
entry when at capacity and the key is new, then `Map.set`. -/
def storeCachedPath (m : PathCache) (k : ℝ × ℝ × ℝ × Bool × ℝ × ℝ × ℝ × ℝ × ℝ)
    (v : List SvgTok) : PathCache :=
  let pruned := if PATH_CACHE_LIMIT ≤ m.length ∧ ¬ containsKey m k then m.tail else m
  setEntry pruned k v

/-- The module-level mutable state: the two caches. -/
structure SquircleState where
  pathCache : PathCache
  profileCache : ProfileCache

/-- The caches at process start (`new Map()` twice). -/
def initialState : SquircleState := ⟨[], []⟩

/-- Model of `buildSquirclePath` (squircleMath.ts lines 32-140), with the two
module-level caches passed as explicit state.  A cached path is returned
unchanged (the `if (cached)` truthiness test is modelled by the `Option`
match; computed paths are never the empty string). -/
def buildSquirclePath (i : SquirclePathInput) (st : SquircleState) :
    List SvgTok × SquircleState :=
  let tl := resolvedTopLeft i
  let tr := resolvedTopRight i
  let br := resolvedBottomRight i
  let bl := resolvedBottomLeft i
  let cacheKey := composeCacheKey i
  match lookupEntries st.pathCache cacheKey with
  | some cached => (cached, st)
  | none =>
    if allRadiiEqual i then
      if tl = 0 then
        let rectanglePath := rectangleTokens i.width i.height
        (rectanglePath, ⟨storeCachedPath st.pathCache cacheKey rectanglePath,
          st.profileCache⟩)
      else
        let budget := min i.width i.height / 2
        let radius := min tl budget
        let r1 := computeCornerProfileCached
          ⟨radius, i.cornerSmoothing, i.preserveSmoothing, budget⟩ st.profileCache
        let path := joinCornerProfiles i.width i.height r1.1 r1.1 r1.1 r1.1
        (path, ⟨storeCachedPath st.pathCache cacheKey path, r1.2⟩)
    else
      let corners := normalizeCorners tl tr br bl i.width i.height
      let r1 := computeCornerProfileCached
        ⟨(corners .topLeft).radius, i.cornerSmoothing, i.preserveSmoothing,
          (corners .topLeft).roundingAndSmoothingBudget⟩ st.profileCache
      let r2 := computeCornerProfileCached
        ⟨(corners .topRight).radius, i.cornerSmoothing, i.preserveSmoothing,
          (corners .topRight).roundingAndSmoothingBudget⟩ r1.2
      let r3 := computeCornerProfileCached
        ⟨(corners .bottomRight).radius, i.cornerSmoothing, i.preserveSmoothing,
          (corners .bottomRight).roundingAndSmoothingBudget⟩ r2.2
      let r4 := computeCornerProfileCached
        ⟨(corners .bottomLeft).radius, i.cornerSmoothing, i.preserveSmoothing,
          (corners .bottomLeft).roundingAndSmoothingBudget⟩ r3.2
      let path := joinCornerProfiles i.width i.height r1.1 r2.1 r4.1 r3.1
      (path, ⟨storeCachedPath st.pathCache cacheKey path, r4.2⟩)

/-- The corner-profile queries issued by one `buildSquirclePath` call, in
call order (none for the degenerate rectangle, one for the fast symmetric
path, four — topLeft, topRight, bottomRight, bottomLeft — for the general
path). -/
def profileQueries (i : SquirclePathInput) : List BezierPatchInput :=
  let tl := resolvedTopLeft i
  if allRadiiEqual i then
    if tl = 0 then []
    else
      let budget := min i.width i.height / 2
      [⟨min tl budget, i.cornerSmoothing, i.preserveSmoothing, budget⟩]
  else
    let corners := normalizeCorners tl (resolvedTopRight i)
      (resolvedBottomRight i) (resolvedBottomLeft i) i.width i.height
    [⟨(corners .topLeft).radius, i.cornerSmoothing, i.preserveSmoothing,
        (corners .topLeft).roundingAndSmoothingBudget⟩,
      ⟨(corners .topRight).radius, i.cornerSmoothing, i.preserveSmoothing,
        (corners .topRight).roundingAndSmoothingBudget⟩,
      ⟨(corners .bottomRight).radius, i.cornerSmoothing, i.preserveSmoothing,
        (corners .bottomRight).roundingAndSmoothingBudget⟩,
      ⟨(corners .bottomLeft).radius, i.cornerSmoothing, i.preserveSmoothing,
        (corners .bottomLeft).roundingAndSmoothingBudget⟩]

/-! ## Helper lemmas -/

@[simp]
theorem oadd_some (a b : ℝ) : oadd (some a) (some b) = some (a + b) := rfl

@[simp]
theorem osub_some (a b : ℝ) : osub (some a) (some b) = some (a - b) := rfl

@[simp]
theorem omul_some (a b : ℝ) : omul (some a) (some b) = some (a * b) := rfl

@[simp]
theorem oneg_some (a : ℝ) : oneg (some a) = some (-a) := rfl

@[simp]
theorem omin_some (a b : ℝ) : omin (some a) (some b) = some (min a b) := rfl

@[simp]
theorem osin_some (a : ℝ) : osin (some a) = some (Real.sin a) := rfl

@[simp]
theorem ocos_some (a : ℝ) : ocos (some a) = some (Real.cos a) := rfl

@[simp]
theorem otan_some (a : ℝ) : otan (some a) = some (Real.tan a) := rfl

@[simp]
theorem odiv_some (a b : ℝ) (hb : b ≠ 0) : odiv (some a) (some b) = some (a / b) := by
  simp [odiv, hb]

@[simp]
theorem oleb_some (a y : ℝ) : oleb (some a) y = decide (a ≤ y) := rfl

@[simp]
theorem ogeb_some (a y : ℝ) : ogeb (some a) y = decide (y ≤ a) := rfl

@[simp]
theorem oeqb_some (a y : ℝ) : oeqb (some a) y = decide (a = y) := rfl

@[simp]
theorem ogtb_some (a b : ℝ) : ogtb (some a) (some b) = decide (b < a) := rfl

@[simp]
theorem otruthy_some (a : ℝ) : otruthy (some a) = decide (a ≠ 0) := rfl

theorem jsToFixed_zero (d : ℕ) : jsToFixed d 0 = 0 := by
  simp [jsToFixed]

theorem isRound4_jsToFixed (x : ℝ) : isRound4 (jsToFixed 4 x) := by
  unfold jsToFixed isRound4
  split
  · exact ⟨-(round ((10 ^ 4 : ℝ) * (-x))), by push_cast; ring⟩
  · exact ⟨round ((10 ^ 4 : ℝ) * x), rfl⟩

theorem isRound4_neg {x : ℝ} (h : isRound4 x) : isRound4 (-x) := by
  obtain ⟨n, hn⟩ := h
  exact ⟨-n, by rw [hn]; push_cast; ring⟩

theorem isRound4_zero : isRound4 (0 : ℝ) := ⟨0, by simp⟩

theorem lookupEntries_nil {κ α : Type} [DecidableEq κ] (k : κ) :
    lookupEntries ([] : List (κ × α)) k = none := rfl

theorem lookupEntries_setEntry_self {κ α : Type} [DecidableEq κ]
    (m : List (κ × α)) (k : κ) (v : α) :
    lookupEntries (setEntry m k v) k = some v := by
  induction m with
  | nil => simp [setEntry, lookupEntries]
  | cons e rest ih =>
    by_cases h : e.1 = k
    · simp [setEntry, h, lookupEntries]
    · simp [setEntry, h, lookupEntries, ih]

theorem lookupEntries_setEntry_ne {κ α : Type} [DecidableEq κ]
    (m : List (κ × α)) (k k' : κ) (v : α) (hne : k' ≠ k) :
    lookupEntries (setEntry m k v) k' = lookupEntries m k' := by
  induction m with
  | nil => simp [setEntry, lookupEntries, Ne.symm hne]
  | cons e rest ih =>
    by_cases h : e.1 = k
    · simp [setEntry, h, lookupEntries, Ne.symm hne]
    · simp only [setEntry, h, if_false, lookupEntries, ih]

theorem lookupEntries_storeCachedPath_self (m : PathCache)
    (k : ℝ × ℝ × ℝ × Bool × ℝ × ℝ × ℝ × ℝ × ℝ) (v : List SvgTok) :
    lookupEntries (storeCachedPath m k v) k = some v := by
  unfold storeCachedPath
  exact lookupEntries_setEntry_self _ k v

/-! ### Lemmas about `computeCornerProfile` -/

theorem zeroPatch_p : zeroPatch.p = 0 := rfl

/-- The footprint in the non-preserving, non-degenerate case is exactly
`min ((1 + smoothing) * radius) budget`. -/
theorem computeCornerProfile_p_nonpreserve (r s budget : ℝ)
    (hr : 0 < r) (hb : 0 < budget) :
    (computeCornerProfile r s false budget).p = min ((1 + s) * r) budget := by
  unfold computeCornerProfile
  rw [if_neg (by push_neg; exact ⟨hr, hb⟩)]
  simp

/-- The assembled footprint never exceeds a non-negative budget, in every
mode and also in the degenerate case. -/
theorem computeCornerProfile_p_le (r s : ℝ) (pres : Bool) (budget : ℝ)
    (hb : 0 ≤ budget) :
    (computeCornerProfile r s pres budget).p ≤ budget := by
  by_cases hdeg : r ≤ 0 ∨ budget ≤ 0
  · rw [computeCornerProfile, if_pos hdeg]
    simpa [zeroPatch] using hb
  · rw [computeCornerProfile, if_neg hdeg]
    cases pres with
    | false =>
      simp only [Bool.false_eq_true, if_false, false_and, min_le_iff]
      right; exact le_rfl
    | true =>
      simp only [if_true, true_and]
      split
      · simp only [min_le_iff]; right; exact le_rfl
      · rename_i hlt
        simpa using le_of_not_lt hlt

set_option maxHeartbeats 2000000 in
/-- On NaN-free inputs the NaN-aware corner profile computation never
produces NaN and agrees with the pure computation. -/
theorem computeCornerProfileO_some (r s : ℝ) (pres : Bool) (b : ℝ) :
    computeCornerProfileO (some r) s pres (some b) =
      patchToO (computeCornerProfile r s pres b) := by
  by_cases hdeg : r ≤ 0 ∨ b ≤ 0
  · rw [computeCornerProfileO, if_pos (by simpa [oleb] using hdeg),
      computeCornerProfile, if_pos hdeg]
  · push_neg at hdeg
    obtain ⟨hr, hb⟩ := hdeg
    cases pres with
    | false =>
      simp [computeCornerProfile, computeCornerProfileO, oleb, hr.not_le,
        hb.not_le, odiv, hr.ne', effectiveSmoothing, degToRad, ogtb, patchToO]
    | true =>
      simp [computeCornerProfile, computeCornerProfileO, oleb, hr.not_le,
        hb.not_le, odiv, hr.ne', effectiveSmoothing, degToRad, ogtb,
        Bool.and_eq_true, apply_ite patchToO, patchToO]
      split
      · rename_i hlt
        simp [hlt]
      · rename_i hlt
        simp [hlt]

@[simp]
theorem patchToO_a (x : BezierPatch) : (patchToO x).a = some x.a := rfl

@[simp]
theorem patchToO_b (x : BezierPatch) : (patchToO x).b = some x.b := rfl

@[simp]
theorem patchToO_c (x : BezierPatch) : (patchToO x).c = some x.c := rfl

@[simp]
theorem patchToO_d (x : BezierPatch) : (patchToO x).d = some x.d := rfl

@[simp]
theorem patchToO_p (x : BezierPatch) : (patchToO x).p = some x.p := rfl

@[simp]
theorem patchToO_cornerRadius (x : BezierPatch) :
    (patchToO x).cornerRadius = some x.cornerRadius := rfl

@[simp]
theorem patchToO_arcSectionLength (x : BezierPatch) :
    (patchToO x).arcSectionLength = some x.arcSectionLength := rfl

theorem traceTopRightO_toO (patch : BezierPatch) :
    traceTopRightO (patchToO patch) = (traceTopRight patch).map tokToO := by
  by_cases h : patch.cornerRadius = 0 <;>
    simp [traceTopRightO, traceTopRight, patchToO, tokToO, h]

theorem traceBottomRightO_toO (patch : BezierPatch) :
    traceBottomRightO (patchToO patch) = (traceBottomRight patch).map tokToO := by
  by_cases h : patch.cornerRadius = 0 <;>
    simp [traceBottomRightO, traceBottomRight, patchToO, tokToO, h]

theorem traceBottomLeftO_toO (patch : BezierPatch) :
    traceBottomLeftO (patchToO patch) = (traceBottomLeft patch).map tokToO := by
  by_cases h : patch.cornerRadius = 0 <;>
    simp [traceBottomLeftO, traceBottomLeft, patchToO, tokToO, h]

theorem traceTopLeftO_toO (patch : BezierPatch) :
    traceTopLeftO (patchToO patch) = (traceTopLeft patch).map tokToO := by
  by_cases h : patch.cornerRadius = 0 <;>
    simp [traceTopLeftO, traceTopLeft, patchToO, tokToO, h]

theorem joinCornerProfilesO_toO (w h : ℝ) (tl tr bl br : BezierPatch) :
    joinCornerProfilesO w h (patchToO tl) (patchToO tr) (patchToO bl) (patchToO br) =
      (joinCornerProfiles w h tl tr bl br).map tokToO := by
  simp [joinCornerProfilesO, joinCornerProfiles, traceTopRightO_toO,
    traceBottomRightO_toO, traceBottomLeftO_toO, traceTopLeftO_toO, tokToO]

/-! ### Invariants of the normalizer fold -/

theorem adjacentRelations_sides (c : CornerId) (w h : ℝ) :
    sideLen (adjacentRelations c).1.2 w h = w ∧
      sideLen (adjacentRelations c).2.2 w h = h := by
  cases c <;> simp [adjacentRelations, sideLen]

theorem adjacentRelations_ne (c : CornerId) :
    (adjacentRelations c).1.1 ≠ c ∧ (adjacentRelations c).2.1 ≠ c := by
  cases c <;> simp [adjacentRelations]

theorem adjacentRelations_symm (c a : CornerId) (e : EdgeOrientation)
    (h : (adjacentRelations c).1 = (a, e) ∨ (adjacentRelations c).2 = (a, e)) :
    (adjacentRelations a).1 = (c, e) ∨ (adjacentRelations a).2 = (c, e) := by
  cases c <;> cases a <;> simp_all [adjacentRelations]

/-- Invariant of the `normalizeCorners` fold over the sorted entry list;
`l` is the suffix of entries still to process.  All current radii are
non-negative, pending corners still hold the sentinel budget -1, resolved
budgets lie within both edge lengths, and the budgets of two resolved
adjacent corners sum to at most the shared edge length. -/
structure NormInv (w h : ℝ) (l : List (CornerId × ℝ)) (rm bm : CornerId → ℝ) : Prop where
  rm_nonneg : ∀ c, 0 ≤ rm c
  pending : ∀ c r, (c, r) ∈ l → bm c = -1
  resolved : ∀ c, (∀ r, (c, r) ∉ l) → 0 ≤ bm c ∧ bm c ≤ w ∧ bm c ≤ h
  adjSum : ∀ c, (∀ r, (c, r) ∉ l) → ∀ a e,
    ((adjacentRelations c).1 = (a, e) ∨ (adjacentRelations c).2 = (a, e)) →
    (∀ r, (a, r) ∉ l) → bm c + bm a ≤ sideLen e w h

theorem sideLen_cases (e : EdgeOrientation) (w h : ℝ) :
    sideLen e w h = w ∨ sideLen e w h = h := by
  cases e <;> simp [sideLen]

theorem cornerBudgetTerm_bounds (w h : ℝ) (hw : 0 ≤ w) (hh : 0 ≤ h)
    (rm bm : CornerId → ℝ) (hrm : ∀ x, 0 ≤ rm x) (radius : ℝ) (hr : 0 ≤ radius)
    (adj : CornerId × EdgeOrientation)
    (hbm : bm adj.1 = -1 ∨ (0 ≤ bm adj.1 ∧ bm adj.1 ≤ w ∧ bm adj.1 ≤ h)) :
    0 ≤ cornerBudgetTerm rm bm radius adj w h ∧
      cornerBudgetTerm rm bm radius adj w h ≤ sideLen adj.2 w h := by
  have hL : 0 ≤ sideLen adj.2 w h := by cases adj.2 <;> simpa [sideLen]
  unfold cornerBudgetTerm
  split
  · exact ⟨le_refl 0, hL⟩
  rename_i hno
  split
  · rename_i hres
    rcases hbm with hbm1 | ⟨h0, hwle, hhle⟩
    · rw [hbm1] at hres; norm_num at hres
    · have hle : bm adj.1 ≤ sideLen adj.2 w h := by
        cases adj.2 <;> simpa [sideLen]
      constructor
      · linarith
      · linarith
  · rename_i hnres
    have hden : 0 < radius + rm adj.1 := by
      rcases hr.lt_or_eq with hlt | heq
      · linarith [hrm adj.1]
      · have hne : rm adj.1 ≠ 0 := fun hz => hno ⟨heq.symm, hz⟩
        have := (hrm adj.1).lt_of_ne (Ne.symm hne)
        linarith
    have hratio0 : 0 ≤ radius / (radius + rm adj.1) := div_nonneg hr hden.le
    have hratio1 : radius / (radius + rm adj.1) ≤ 1 := by
      rw [div_le_one hden]; linarith [hrm adj.1]
    refine ⟨mul_nonneg hratio0 hL, ?_⟩
    calc radius / (radius + rm adj.1) * sideLen adj.2 w h
        ≤ 1 * sideLen adj.2 w h := mul_le_mul_of_nonneg_right hratio1 hL
      _ = sideLen adj.2 w h := one_mul _

/-- When the neighbour is resolved, a budget term is either the degenerate 0
or exactly the remaining edge length. -/
theorem cornerBudgetTerm_of_resolved (rm bm : CornerId → ℝ) (radius : ℝ)
    (adj : CornerId × EdgeOrientation) (w h : ℝ) (hres : 0 ≤ bm adj.1) :
    cornerBudgetTerm rm bm radius adj w h = 0 ∨
      cornerBudgetTerm rm bm radius adj w h = sideLen adj.2 w h - bm adj.1 := by
  unfold cornerBudgetTerm
  split
  · exact Or.inl rfl
  · exact Or.inr rfl

theorem updateCorner_self {α : Type} (f : CornerId → α) (c : CornerId) (v : α) :
    updateCorner f c v c = v := by
  simp [updateCorner]

theorem updateCorner_ne {α : Type} (f : CornerId → α) (c : CornerId) (v : α)
    (x : CornerId) (h : x ≠ c) : updateCorner f c v x = f x := by
  simp [updateCorner, h]

theorem processCorner_inv (w h : ℝ) (hw : 0 ≤ w) (hh : 0 ≤ h)
    (c : CornerId) (r : ℝ) (hr : 0 ≤ r) (t : List (CornerId × ℝ))
    (rm bm : CornerId → ℝ) (hinv : NormInv w h ((c, r) :: t) rm bm)
    (hct : ∀ r', (c, r') ∉ t) :
    NormInv w h t (processCorner w h (rm, bm) (c, r)).1
      (processCorner w h (rm, bm) (c, r)).2 := by
  have hbm_cases : ∀ x : CornerId, bm x = -1 ∨ (0 ≤ bm x ∧ bm x ≤ w ∧ bm x ≤ h) := by
    intro x
    by_cases hx : ∀ r', (x, r') ∉ (c, r) :: t
    · exact Or.inr (hinv.resolved x hx)
    · push_neg at hx
      obtain ⟨rx, hrx⟩ := hx
      exact Or.inl (hinv.pending x rx hrx)
  have hterm1 := cornerBudgetTerm_bounds w h hw hh rm bm hinv.rm_nonneg r hr
    (adjacentRelations c).1 (hbm_cases _)
  have hterm2 := cornerBudgetTerm_bounds w h hw hh rm bm hinv.rm_nonneg r hr
    (adjacentRelations c).2 (hbm_cases _)
  have hsides := adjacentRelations_sides c w h
  set t1 := cornerBudgetTerm rm bm r (adjacentRelations c).1 w h with ht1
  set t2 := cornerBudgetTerm rm bm r (adjacentRelations c).2 w h with ht2
  have hstep : processCorner w h (rm, bm) (c, r) =
      (updateCorner rm c (min r (min t1 t2)), updateCorner bm c (min t1 t2)) := rfl
  have hbud0 : 0 ≤ min t1 t2 := le_min hterm1.1 hterm2.1
  have hbudw : min t1 t2 ≤ w := le_trans (min_le_left _ _) (hsides.1 ▸ hterm1.2)
  have hbudh : min t1 t2 ≤ h := le_trans (min_le_right _ _) (hsides.2 ▸ hterm2.2)
  -- the budget/adjacent-sum bound shared by the two symmetric adjSum cases
  have hadj_bound : ∀ a e, ((adjacentRelations c).1 = (a, e) ∨
      (adjacentRelations c).2 = (a, e)) → 0 ≤ bm a →
      bm a ≤ sideLen e w h → min t1 t2 + bm a ≤ sideLen e w h := by
    intro a e hae hares hale
    rcases hae with hae | hae
    · have hres0 : 0 ≤ bm (adjacentRelations c).1.1 := by rw [hae]; exact hares
      rcases cornerBudgetTerm_of_resolved rm bm r (adjacentRelations c).1 w h hres0
        with hz | heq
      · have hmin : min t1 t2 ≤ 0 := le_trans (min_le_left _ _) (ht1.trans hz).le
        linarith
      · have ht1eq : t1 = sideLen (adjacentRelations c).1.2 w h -
            bm (adjacentRelations c).1.1 := ht1.trans heq
        rw [hae] at ht1eq
        have ht1eq2 : t1 = sideLen e w h - bm a := by simpa using ht1eq
        have hmin : min t1 t2 ≤ sideLen e w h - bm a :=
          le_trans (min_le_left _ _) ht1eq2.le
        linarith
    · have hres0 : 0 ≤ bm (adjacentRelations c).2.1 := by rw [hae]; exact hares
      rcases cornerBudgetTerm_of_resolved rm bm r (adjacentRelations c).2 w h hres0
        with hz | heq
      · have hmin : min t1 t2 ≤ 0 := le_trans (min_le_right _ _) (ht2.trans hz).le
        linarith
      · have ht2eq : t2 = sideLen (adjacentRelations c).2.2 w h -
            bm (adjacentRelations c).2.1 := ht2.trans heq
        rw [hae] at ht2eq
        have ht2eq2 : t2 = sideLen e w h - bm a := by simpa using ht2eq
        have hmin : min t1 t2 ≤ sideLen e w h - bm a :=
          le_trans (min_le_right _ _) ht2eq2.le
        linarith
  rw [hstep]
  constructor
  · -- rm_nonneg
    intro x
    show 0 ≤ updateCorner rm c (min r (min t1 t2)) x
    by_cases hxc : x = c
    · subst hxc
      rw [updateCorner_self]
      exact le_min hr hbud0
    · rw [updateCorner_ne _ _ _ _ hxc]
      exact hinv.rm_nonneg x
  · -- pending
    intro x rx hx
    show updateCorner bm c (min t1 t2) x = -1
    have hxc : x ≠ c := fun hxe => hct rx (hxe ▸ hx)
    rw [updateCorner_ne _ _ _ _ hxc]
    exact hinv.pending x rx (List.mem_cons_of_mem _ hx)
  · -- resolved
    intro x hx
    show 0 ≤ updateCorner bm c (min t1 t2) x ∧ updateCorner bm c (min t1 t2) x ≤ w ∧
      updateCorner bm c (min t1 t2) x ≤ h
    by_cases hxc : x = c
    · subst hxc
      rw [updateCorner_self]
      exact ⟨hbud0, hbudw, hbudh⟩
    · rw [updateCorner_ne _ _ _ _ hxc]
      refine hinv.resolved x ?_
      intro rx hrx
      rcases List.mem_cons.mp hrx with hhd | htl
      · exact hxc (congrArg Prod.fst hhd)
      · exact hx rx htl
  · -- adjSum
    intro x hx a e hae ha
    show updateCorner bm c (min t1 t2) x + updateCorner bm c (min t1 t2) a ≤
      sideLen e w h
    by_cases hxc : x = c
    · subst hxc
      have hac : a ≠ x := by
        rcases hae with hae | hae
        · intro hec
          apply (adjacentRelations_ne x).1
          rw [hae, hec]
        · intro hec
          apply (adjacentRelations_ne x).2
          rw [hae, hec]
      have hares := hinv.resolved a (by
        intro ra hra
        rcases List.mem_cons.mp hra with hhd | htl
        · exact hac (congrArg Prod.fst hhd)
        · exact ha ra htl)
      have hale : bm a ≤ sideLen e w h := by
        rcases sideLen_cases e w h with hs | hs
        · rw [hs]; exact hares.2.1
        · rw [hs]; exact hares.2.2
      rw [updateCorner_self, updateCorner_ne _ _ _ _ hac]
      exact hadj_bound a e hae hares.1 hale
    · by_cases hac : a = c
      · subst hac
        have hsym := adjacentRelations_symm x a e hae
        have hxres := hinv.resolved x (by
          intro rx hrx
          rcases List.mem_cons.mp hrx with hhd | htl
          · exact hxc (congrArg Prod.fst hhd)
          · exact hx rx htl)
        have hxle : bm x ≤ sideLen e w h := by
          rcases sideLen_cases e w h with hs | hs
          · rw [hs]; exact hxres.2.1
          · rw [hs]; exact hxres.2.2
        rw [updateCorner_self, updateCorner_ne _ _ _ _ hxc]
        have := hadj_bound x e hsym hxres.1 hxle
        linarith
      · rw [updateCorner_ne _ _ _ _ hxc, updateCorner_ne _ _ _ _ hac]
        refine hinv.adjSum x ?_ a e hae ?_
        · intro rx hrx
          rcases List.mem_cons.mp hrx with hhd | htl
          · exact hxc (congrArg Prod.fst hhd)
          · exact hx rx htl
        · intro ra hra
          rcases List.mem_cons.mp hra with hhd | htl
          · exact hac (congrArg Prod.fst hhd)
          · exact ha ra htl

theorem foldl_processCorner_inv (w h : ℝ) (hw : 0 ≤ w) (hh : 0 ≤ h) :
    ∀ (l : List (CornerId × ℝ)) (rm bm : CornerId → ℝ),
      NormInv w h l rm bm → (∀ p ∈ l, 0 ≤ p.2) → (l.map Prod.fst).Nodup →
      NormInv w h [] ((l.foldl (processCorner w h) (rm, bm)).1)
        ((l.foldl (processCorner w h) (rm, bm)).2)
  | [], rm, bm, hinv, _, _ => hinv
  | (c, r) :: t, rm, bm, hinv, hrl, hnd => by
    have hnd' : (∀ x : ℝ, (c, x) ∉ t) ∧ (t.map Prod.fst).Nodup := by
      simpa using hnd
    have hct : ∀ r', (c, r') ∉ t := hnd'.1
    have hstep := processCorner_inv w h hw hh c r
      (hrl (c, r) (List.mem_cons_self _ _)) t rm bm hinv hct
    have hrec := foldl_processCorner_inv w h hw hh t
      (processCorner w h (rm, bm) (c, r)).1 (processCorner w h (rm, bm) (c, r)).2
      hstep (fun p hp => hrl p (List.mem_cons_of_mem _ hp)) hnd'.2
    simpa using hrec

theorem mem_cornerEntries (tl tr br bl : ℝ) (c : CornerId) :
    (c, initialRadiusMap tl tr br bl c) ∈ cornerEntries tl tr br bl := by
  cases c <;> simp [cornerEntries, initialRadiusMap]

theorem sortedCornerEntries_perm (tl tr br bl : ℝ) :
    (sortedCornerEntries tl tr br bl).Perm (cornerEntries tl tr br bl) :=
  List.perm_insertionSort _ _

theorem normalizeCorners_radius_eq (tl tr br bl w h : ℝ) (c : CornerId) :
    (normalizeCorners tl tr br bl w h c).radius =
      ((sortedCornerEntries tl tr br bl).foldl (processCorner w h)
        (initialRadiusMap tl tr br bl, fun _ => (-1 : ℝ))).1 c := rfl

theorem normalizeCorners_budget_eq (tl tr br bl w h : ℝ) (c : CornerId) :
    (normalizeCorners tl tr br bl w h c).roundingAndSmoothingBudget =
      ((sortedCornerEntries tl tr br bl).foldl (processCorner w h)
        (initialRadiusMap tl tr br bl, fun _ => (-1 : ℝ))).2 c := rfl

theorem initial_norm_inv (tl tr br bl w h : ℝ)
    (h1 : 0 ≤ tl) (h2 : 0 ≤ tr) (h3 : 0 ≤ br) (h4 : 0 ≤ bl) :
    NormInv w h (sortedCornerEntries tl tr br bl)
      (initialRadiusMap tl tr br bl) (fun _ => (-1 : ℝ)) := by
  have hmem : ∀ c : CornerId,
      (c, initialRadiusMap tl tr br bl c) ∈ sortedCornerEntries tl tr br bl :=
    fun c => (sortedCornerEntries_perm tl tr br bl).mem_iff.mpr
      (mem_cornerEntries tl tr br bl c)
  constructor
  · intro c
    cases c with
    | topLeft => exact h1
    | topRight => exact h2
    | bottomLeft => exact h4
    | bottomRight => exact h3
  · intro c r _
    rfl
  · intro c hc
    exact absurd (hmem c) (hc _)
  · intro c hc
    exact absurd (hmem c) (hc _)

theorem sorted_radii_nonneg (tl tr br bl : ℝ)
    (h1 : 0 ≤ tl) (h2 : 0 ≤ tr) (h3 : 0 ≤ br) (h4 : 0 ≤ bl) :
    ∀ p ∈ sortedCornerEntries tl tr br bl, 0 ≤ p.2 := by
  intro p hp
  have hp2 := (sortedCornerEntries_perm tl tr br bl).mem_iff.mp hp
  simp only [cornerEntries, List.mem_cons, List.not_mem_nil, or_false] at hp2
  rcases hp2 with h | h | h | h <;> subst h
  · exact h1
  · exact h2
  · exact h4
  · exact h3

theorem sorted_corners_nodup (tl tr br bl : ℝ) :
    ((sortedCornerEntries tl tr br bl).map Prod.fst).Nodup := by
  have hperm := (sortedCornerEntries_perm tl tr br bl).map Prod.fst
  refine hperm.nodup_iff.mpr ?_
  show ([CornerId.topLeft, .topRight, .bottomLeft, .bottomRight]).Nodup
  decide

/-- Main consequence of the normalizer invariant: all budgets lie within
both edge lengths, and adjacent budgets sum to at most the shared edge. -/
theorem normalizeCorners_bounds (tl tr br bl w h : ℝ) (hw : 0 ≤ w) (hh : 0 ≤ h)
    (h1 : 0 ≤ tl) (h2 : 0 ≤ tr) (h3 : 0 ≤ br) (h4 : 0 ≤ bl) :
    (∀ c, 0 ≤ (normalizeCorners tl tr br bl w h c).roundingAndSmoothingBudget ∧
        (normalizeCorners tl tr br bl w h c).roundingAndSmoothingBudget ≤ w ∧
        (normalizeCorners tl tr br bl w h c).roundingAndSmoothingBudget ≤ h) ∧
      ∀ c a e,
        ((adjacentRelations c).1 = (a, e) ∨ (adjacentRelations c).2 = (a, e)) →
        (normalizeCorners tl tr br bl w h c).roundingAndSmoothingBudget +
          (normalizeCorners tl tr br bl w h a).roundingAndSmoothingBudget ≤
          sideLen e w h := by
  have hfin := foldl_processCorner_inv w h hw hh (sortedCornerEntries tl tr br bl)
    (initialRadiusMap tl tr br bl) (fun _ => (-1 : ℝ))
    (initial_norm_inv tl tr br bl w h h1 h2 h3 h4)
    (sorted_radii_nonneg tl tr br bl h1 h2 h3 h4)
    (sorted_corners_nodup tl tr br bl)
  constructor
  · intro c
    rw [normalizeCorners_budget_eq]
    exact hfin.resolved c (by intro r hr; exact absurd hr (List.not_mem_nil _))
  · intro c a e hae
    rw [normalizeCorners_budget_eq, normalizeCorners_budget_eq]
    exact hfin.adjSum c (by intro r hr; exact absurd hr (List.not_mem_nil _))
      a e hae (by intro r hr; exact absurd hr (List.not_mem_nil _))

/-! ### NaN-freedom of the normalizer -/

theorem cornerBudgetTermO_some (w h : ℝ) (rm bm : CornerId → ℝ)
    (rmO bmO : CornerId → Option ℝ) (hrm : ∀ x, rmO x = some (rm x))
    (hbm : ∀ x, bmO x = some (bm x)) (radius : ℝ) (hr : 0 ≤ radius)
    (hrm0 : ∀ x, 0 ≤ rm x) (adj : CornerId × EdgeOrientation) :
    cornerBudgetTermO rmO bmO radius adj w h =
      some (cornerBudgetTerm rm bm radius adj w h) := by
  by_cases hz : radius = 0 ∧ rm adj.1 = 0
  · simp [cornerBudgetTermO, cornerBudgetTerm, hrm, hbm, hz.1, hz.2]
  · by_cases hres : 0 ≤ bm adj.1
    · simp [cornerBudgetTermO, cornerBudgetTerm, hrm, hbm, hz, hres, osub]
    · have hden : radius + rm adj.1 ≠ 0 := by
        rcases hr.lt_or_eq with hlt | heq
        · have := hrm0 adj.1
          exact ne_of_gt (by linarith)
        · have hne : rm adj.1 ≠ 0 := fun hzz => hz ⟨heq.symm, hzz⟩
          have hpos := (hrm0 adj.1).lt_of_ne (Ne.symm hne)
          exact ne_of_gt (by linarith)
      simp [cornerBudgetTermO, cornerBudgetTerm, hrm, hbm, hz, hres, odiv, hden]

theorem processCornerO_some (w h : ℝ) (c : CornerId) (r : ℝ) (hr : 0 ≤ r)
    (rm bm : CornerId → ℝ) (rmO bmO : CornerId → Option ℝ)
    (hrm : ∀ x, rmO x = some (rm x)) (hbm : ∀ x, bmO x = some (bm x))
    (hrm0 : ∀ x, 0 ≤ rm x) :
    (∀ x, (processCornerO w h (rmO, bmO) (c, r)).1 x =
      some ((processCorner w h (rm, bm) (c, r)).1 x)) ∧
    (∀ x, (processCornerO w h (rmO, bmO) (c, r)).2 x =
      some ((processCorner w h (rm, bm) (c, r)).2 x)) := by
  have ht1 := cornerBudgetTermO_some w h rm bm rmO bmO hrm hbm r hr hrm0
    (adjacentRelations c).1
  have ht2 := cornerBudgetTermO_some w h rm bm rmO bmO hrm hbm r hr hrm0
    (adjacentRelations c).2
  constructor
  · intro x
    show updateCorner rmO c
        (omin (some r) (omin (cornerBudgetTermO rmO bmO r (adjacentRelations c).1 w h)
          (cornerBudgetTermO rmO bmO r (adjacentRelations c).2 w h))) x =
      some (updateCorner rm c
        (min r (min (cornerBudgetTerm rm bm r (adjacentRelations c).1 w h)
          (cornerBudgetTerm rm bm r (adjacentRelations c).2 w h))) x)
    by_cases hxc : x = c
    · subst hxc
      rw [updateCorner_self, updateCorner_self, ht1, ht2]
      simp
    · rw [updateCorner_ne _ _ _ _ hxc, updateCorner_ne _ _ _ _ hxc]
      exact hrm x
  · intro x
    show updateCorner bmO c
        (omin (cornerBudgetTermO rmO bmO r (adjacentRelations c).1 w h)
          (cornerBudgetTermO rmO bmO r (adjacentRelations c).2 w h)) x =
      some (updateCorner bm c
        (min (cornerBudgetTerm rm bm r (adjacentRelations c).1 w h)
          (cornerBudgetTerm rm bm r (adjacentRelations c).2 w h)) x)
    by_cases hxc : x = c
    · subst hxc
      rw [updateCorner_self, updateCorner_self, ht1, ht2]
      simp
    · rw [updateCorner_ne _ _ _ _ hxc, updateCorner_ne _ _ _ _ hxc]
      exact hbm x

theorem foldl_processCornerO_some (w h : ℝ) (hw : 0 ≤ w) (hh : 0 ≤ h) :
    ∀ (l : List (CornerId × ℝ)) (rm bm : CornerId → ℝ)
      (rmO bmO : CornerId → Option ℝ),
      NormInv w h l rm bm → (∀ p ∈ l, 0 ≤ p.2) → (l.map Prod.fst).Nodup →
      (∀ x, rmO x = some (rm x)) → (∀ x, bmO x = some (bm x)) →
      (∀ x, (l.foldl (processCornerO w h) (rmO, bmO)).1 x =
        some ((l.foldl (processCorner w h) (rm, bm)).1 x)) ∧
      (∀ x, (l.foldl (processCornerO w h) (rmO, bmO)).2 x =
        some ((l.foldl (processCorner w h) (rm, bm)).2 x))
  | [], rm, bm, rmO, bmO, _, _, _, hrm, hbm => ⟨hrm, hbm⟩
  | (c, r) :: t, rm, bm, rmO, bmO, hinv, hrl, hnd, hrm, hbm => by
    have hnd' : (∀ x : ℝ, (c, x) ∉ t) ∧ (t.map Prod.fst).Nodup := by
      simpa using hnd
    have hct : ∀ r', (c, r') ∉ t := hnd'.1
    have hr0 := hrl (c, r) (List.mem_cons_self _ _)
    have hstepO := processCornerO_some w h c r hr0 rm bm rmO bmO hrm hbm
      hinv.rm_nonneg
    have hstep := processCorner_inv w h hw hh c r hr0 t rm bm hinv hct
    have hrec := foldl_processCornerO_some w h hw hh t
      (processCorner w h (rm, bm) (c, r)).1 (processCorner w h (rm, bm) (c, r)).2
      (processCornerO w h (rmO, bmO) (c, r)).1 (processCornerO w h (rmO, bmO) (c, r)).2
      hstep (fun p hp => hrl p (List.mem_cons_of_mem _ hp)) hnd'.2
      hstepO.1 hstepO.2
    simpa using hrec

/-- Under the preconditions, the NaN-aware normalizer agrees with the pure
normalizer: no NaN ever enters a radius or budget. -/
theorem normalizeCornersO_some (tl tr br bl w h : ℝ) (hw : 0 ≤ w) (hh : 0 ≤ h)
    (h1 : 0 ≤ tl) (h2 : 0 ≤ tr) (h3 : 0 ≤ br) (h4 : 0 ≤ bl) (c : CornerId) :
    normalizeCornersO tl tr br bl w h c =
      (some (normalizeCorners tl tr br bl w h c).radius,
        some (normalizeCorners tl tr br bl w h c).roundingAndSmoothingBudget) := by
  have hfold := foldl_processCornerO_some w h hw hh (sortedCornerEntries tl tr br bl)
    (initialRadiusMap tl tr br bl) (fun _ => (-1 : ℝ))
    (fun x => some (initialRadiusMap tl tr br bl x)) (fun _ => some (-1 : ℝ))
    (initial_norm_inv tl tr br bl w h h1 h2 h3 h4)
    (sorted_radii_nonneg tl tr br bl h1 h2 h3 h4)
    (sorted_corners_nodup tl tr br bl) (fun _ => rfl) (fun _ => rfl)
  have e1 := hfold.1 c
  have e2 := hfold.2 c
  show (_, _) = _
  rw [normalizeCorners_radius_eq, normalizeCorners_budget_eq]
  exact Prod.ext e1 e2

/-- Under the preconditions the NaN-aware pipeline agrees with the pure
pipeline token for token. -/
theorem squirclePipelineO_toO (i : SquirclePathInput)
    (hw : 0 ≤ i.width) (hh : 0 ≤ i.height)
    (h1 : 0 ≤ resolvedTopLeft i) (h2 : 0 ≤ resolvedTopRight i)
    (h3 : 0 ≤ resolvedBottomRight i) (h4 : 0 ≤ resolvedBottomLeft i) :
    squirclePipelineO i = (squirclePipeline i).map tokToO := by
  simp only [squirclePipelineO, squirclePipeline]
  by_cases heq : allRadiiEqual i
  · by_cases hz : resolvedTopLeft i = 0
    · simp [heq, hz]
    · simp only [if_pos heq, if_neg hz]
      rw [computeCornerProfileO_some, joinCornerProfilesO_toO]
  · simp only [if_neg heq]
    have hn := normalizeCornersO_some (resolvedTopLeft i) (resolvedTopRight i)
      (resolvedBottomRight i) (resolvedBottomLeft i) i.width i.height hw hh
      h1 h2 h3 h4
    rw [hn CornerId.topLeft, hn CornerId.topRight, hn CornerId.bottomLeft,
      hn CornerId.bottomRight]
    rw [computeCornerProfileO_some, computeCornerProfileO_some,
      computeCornerProfileO_some, computeCornerProfileO_some,
      joinCornerProfilesO_toO]

/-- Outside the degenerate rectangle shortcut, the pipeline assembles
exactly the profiles described by `assembledProfiles`. -/
theorem squirclePipeline_uses_assembledProfiles (i : SquirclePathInput)
    (h : ¬ (allRadiiEqual i ∧ resolvedTopLeft i = 0)) :
    squirclePipeline i = joinCornerProfiles i.width i.height
      (assembledProfiles i .topLeft) (assembledProfiles i .topRight)
      (assembledProfiles i .bottomLeft) (assembledProfiles i .bottomRight) := by
  unfold squirclePipeline assembledProfiles
  by_cases hall : allRadiiEqual i
  · have hz : ¬ resolvedTopLeft i = 0 := fun hz => h ⟨hall, hz⟩
    simp [hall, hz]
  · simp [hall]

/-- C1: for every box with non-negative dimensions, non-negative resolved
corner radii, smoothing factor in [0,1] and either preserve flag, the
footprints `p` of the two corner profiles used to assemble the path at the
two ends of each edge sum to at most that edge's length (top and bottom
edges: width; left and right edges: height). -/
theorem adjacent_footprints_within_edges (i : SquirclePathInput)
    (hw : 0 ≤ i.width) (hh : 0 ≤ i.height)
    (h1 : 0 ≤ resolvedTopLeft i) (h2 : 0 ≤ resolvedTopRight i)
    (h3 : 0 ≤ resolvedBottomRight i) (h4 : 0 ≤ resolvedBottomLeft i)
    (hs0 : 0 ≤ i.cornerSmoothing) (hs1 : i.cornerSmoothing ≤ 1) :
    (assembledProfiles i .topLeft).p + (assembledProfiles i .topRight).p ≤ i.width ∧
    (assembledProfiles i .bottomLeft).p + (assembledProfiles i .bottomRight).p ≤ i.width ∧
    (assembledProfiles i .topLeft).p + (assembledProfiles i .bottomLeft).p ≤ i.height ∧
    (assembledProfiles i .topRight).p + (assembledProfiles i .bottomRight).p ≤ i.height := by
  unfold assembledProfiles
  by_cases heq : allRadiiEqual i
  · simp only [if_pos heq]
    have hb0 : 0 ≤ min i.width i.height / 2 :=
      div_nonneg (le_min hw hh) (by norm_num)
    have hp := computeCornerProfile_p_le
      (min (resolvedTopLeft i) (min i.width i.height / 2)) i.cornerSmoothing
      i.preserveSmoothing (min i.width i.height / 2) hb0
    have hmw : min i.width i.height ≤ i.width := min_le_left _ _
    have hmh : min i.width i.height ≤ i.height := min_le_right _ _
    exact ⟨by linarith, by linarith, by linarith, by linarith⟩
  · simp only [if_neg heq]
    obtain ⟨hbnds, hsums⟩ := normalizeCorners_bounds (resolvedTopLeft i)
      (resolvedTopRight i) (resolvedBottomRight i) (resolvedBottomLeft i)
      i.width i.height hw hh h1 h2 h3 h4
    have hp : ∀ c, (computeCornerProfile
        (normalizeCorners (resolvedTopLeft i) (resolvedTopRight i)
          (resolvedBottomRight i) (resolvedBottomLeft i) i.width i.height c).radius
        i.cornerSmoothing i.preserveSmoothing
        (normalizeCorners (resolvedTopLeft i) (resolvedTopRight i)
          (resolvedBottomRight i) (resolvedBottomLeft i) i.width i.height c).roundingAndSmoothingBudget).p ≤
        (normalizeCorners (resolvedTopLeft i) (resolvedTopRight i)
          (resolvedBottomRight i) (resolvedBottomLeft i) i.width i.height c).roundingAndSmoothingBudget :=
      fun c => computeCornerProfile_p_le _ _ _ _ (hbnds c).1
    have htop := hsums .topLeft .topRight .top (Or.inl rfl)
    have hbot := hsums .bottomLeft .bottomRight .bottom (Or.inl rfl)
    have hleft := hsums .topLeft .bottomLeft .left (Or.inr rfl)
    have hright := hsums .topRight .bottomRight .right (Or.inr rfl)
    have e1 := hp CornerId.topLeft
    have e2 := hp CornerId.topRight
    have e3 := hp CornerId.bottomLeft
    have e4 := hp CornerId.bottomRight
    simp only [sideLen] at htop hbot hleft hright
    exact ⟨by linarith, by linarith, by linarith, by linarith⟩

theorem adjacent_footprints_within_edges_witness :
    (0 : ℝ) ≤ 100 ∧ (0 : ℝ) ≤ 0.6 ∧ (0.6 : ℝ) ≤ 1 ∧
    ((assembledProfiles ⟨0, some 10, some 20, some 30, some 40, 0.6, 100, 100, false⟩ .topLeft).p +
        (assembledProfiles ⟨0, some 10, some 20, some 30, some 40, 0.6, 100, 100, false⟩ .topRight).p ≤ 100 ∧
      (assembledProfiles ⟨0, some 10, some 20, some 30, some 40, 0.6, 100, 100, false⟩ .bottomLeft).p +
        (assembledProfiles ⟨0, some 10, some 20, some 30, some 40, 0.6, 100, 100, false⟩ .bottomRight).p ≤ 100 ∧
      (assembledProfiles ⟨0, some 10, some 20, some 30, some 40, 0.6, 100, 100, false⟩ .topLeft).p +
        (assembledProfiles ⟨0, some 10, some 20, some 30, some 40, 0.6, 100, 100, false⟩ .bottomLeft).p ≤ 100 ∧
      (assembledProfiles ⟨0, some 10, some 20, some 30, some 40, 0.6, 100, 100, false⟩ .topRight).p +
        (assembledProfiles ⟨0, some 10, some 20, some 30, some 40, 0.6, 100, 100, false⟩ .bottomRight).p ≤ 100) :=
  ⟨by norm_num, by norm_num, by norm_num,
    adjacent_footprints_within_edges
      ⟨0, some 10, some 20, some 30, some 40, 0.6, 100, 100, false⟩
      (by norm_num : (0:ℝ) ≤ 100) (by norm_num : (0:ℝ) ≤ 100)
      (by norm_num : (0:ℝ) ≤ 10) (by norm_num : (0:ℝ) ≤ 20)
      (by norm_num : (0:ℝ) ≤ 30) (by norm_num : (0:ℝ) ≤ 40)
      (by norm_num : (0:ℝ) ≤ 0.6) (by norm_num : (0.6:ℝ) ≤ 1)⟩

/-- C2: for every valid input (non-negative finite box, non-negative
resolved radii, smoothing in [0,1]) the NaN-aware pipeline emits no NaN
numeric token; in particular no division by zero ever happens. -/
theorem no_nan_tokens (i : SquirclePathInput)
    (hw : 0 ≤ i.width) (hh : 0 ≤ i.height)
    (h1 : 0 ≤ resolvedTopLeft i) (h2 : 0 ≤ resolvedTopRight i)
    (h3 : 0 ≤ resolvedBottomRight i) (h4 : 0 ≤ resolvedBottomLeft i)
    (hs0 : 0 ≤ i.cornerSmoothing) (hs1 : i.cornerSmoothing ≤ 1) :
    SvgTokO.num none ∉ squirclePipelineO i := by
  rw [squirclePipelineO_toO i hw hh h1 h2 h3 h4]
  intro hmem
  obtain ⟨t, _, ht⟩ := List.mem_map.mp hmem
  cases t <;> simp [tokToO] at ht

theorem no_nan_tokens_witness :
    (0 : ℝ) ≤ 40 ∧ (0 : ℝ) ≤ 0.6 ∧ (0.6 : ℝ) ≤ 1 ∧
    SvgTokO.num none ∉ squirclePipelineO
      ⟨0, some 0, some 0, some 40, some 0, 0.6, 100, 100, false⟩ :=
  ⟨by norm_num, by norm_num, by norm_num,
    no_nan_tokens ⟨0, some 0, some 0, some 40, some 0, 0.6, 100, 100, false⟩
      (by norm_num : (0:ℝ) ≤ 100) (by norm_num : (0:ℝ) ≤ 100)
      (by norm_num : (0:ℝ) ≤ 0) (by norm_num : (0:ℝ) ≤ 0)
      (by norm_num : (0:ℝ) ≤ 40) (by norm_num : (0:ℝ) ≤ 0)
      (by norm_num : (0:ℝ) ≤ 0.6) (by norm_num : (0.6:ℝ) ≤ 1)⟩

/-- C8: for radius ≤ 0 or budget ≤ 0 the corner profile is the all-zero
patch (no error is raised), its NaN-aware shadow is fully defined, and
every trace function renders such a corner as a straight `l` line command
with offset 0. -/
theorem degenerate_corner_profile (r s : ℝ) (pres : Bool) (budget : ℝ)
    (h : r ≤ 0 ∨ budget ≤ 0) :
    computeCornerProfile r s pres budget = zeroPatch ∧
    computeCornerProfileO (some r) s pres (some budget) = patchToO zeroPatch ∧
    traceTopRight (computeCornerProfile r s pres budget) =
      [.cmd "l", .num 0, .cmd "0"] ∧
    traceBottomRight (computeCornerProfile r s pres budget) = [.cmd "l 0", .num 0] ∧
    traceBottomLeft (computeCornerProfile r s pres budget) =
      [.cmd "l", .num 0, .cmd "0"] ∧
    traceTopLeft (computeCornerProfile r s pres budget) = [.cmd "l 0", .num 0] := by
  have h0 : computeCornerProfile r s pres budget = zeroPatch := by
    rw [computeCornerProfile, if_pos h]
  have hO : computeCornerProfileO (some r) s pres (some budget) = patchToO zeroPatch := by
    rw [computeCornerProfileO_some, h0]
  refine ⟨h0, hO, ?_, ?_, ?_, ?_⟩ <;>
    simp [h0, traceTopRight, traceBottomRight, traceBottomLeft, traceTopLeft,
      zeroPatch, jsToFixed_zero]

theorem degenerate_corner_profile_witness :
    ((0 : ℝ) ≤ 0 ∨ (10 : ℝ) ≤ 0) ∧
      computeCornerProfile 0 (1 / 2) false 10 = zeroPatch :=
  ⟨Or.inl le_rfl, (degenerate_corner_profile 0 (1 / 2) false 10 (Or.inl le_rfl)).1⟩

/-- C9: with the preserve flag off, a fixed radius 0 < r ≤ budget and
smoothing factors s1 ≤ s2 in [0,1], the arc measure is non-increasing in
the smoothing factor, the footprint `p` is non-decreasing, and `p` stays
capped at the budget. -/
theorem smoothing_monotonicity (r budget s1 s2 : ℝ) (hr : 0 < r)
    (hrb : r ≤ budget) (h0 : 0 ≤ s1) (h12 : s1 ≤ s2) (h21 : s2 ≤ 1) :
    arcMeasureOf r s2 false budget ≤ arcMeasureOf r s1 false budget ∧
    (computeCornerProfile r s1 false budget).p ≤
      (computeCornerProfile r s2 false budget).p ∧
    (computeCornerProfile r s2 false budget).p ≤ budget := by
  have hb : 0 < budget := lt_of_lt_of_le hr hrb
  refine ⟨?_, ?_, computeCornerProfile_p_le _ _ _ _ hb.le⟩
  · unfold arcMeasureOf effectiveSmoothing
    simp only [Bool.false_eq_true, if_false]
    have hmin : min s1 (budget / r - 1) ≤ min s2 (budget / r - 1) :=
      min_le_min h12 le_rfl
    linarith
  · rw [computeCornerProfile_p_nonpreserve r s1 budget hr hb,
      computeCornerProfile_p_nonpreserve r s2 budget hr hb]
    have hmul : (1 + s1) * r ≤ (1 + s2) * r := by nlinarith
    exact min_le_min hmul le_rfl

theorem smoothing_monotonicity_witness :
    (0 : ℝ) < 10 ∧ (10 : ℝ) ≤ 20 ∧ (0 : ℝ) ≤ 0.2 ∧ (0.2 : ℝ) ≤ 0.5 ∧
    (0.5 : ℝ) ≤ 1 ∧
    (arcMeasureOf 10 0.5 false 20 ≤ arcMeasureOf 10 0.2 false 20 ∧
      (computeCornerProfile 10 0.2 false 20).p ≤
        (computeCornerProfile 10 0.5 false 20).p ∧
      (computeCornerProfile 10 0.5 false 20).p ≤ 20) :=
  ⟨by norm_num, by norm_num, by norm_num, by norm_num, by norm_num,
    smoothing_monotonicity 10 20 0.2 0.5 (by norm_num) (by norm_num)
      (by norm_num) (by norm_num) (by norm_num)⟩

/-- C6 counterexample: in a 100 by 100 box with requested radii
(topLeft 0, topRight 0, bottomRight 40, bottomLeft 0), the normalizer
processes bottomRight first (resolving its budget to 100 and keeping its
radius 40); at the moment topLeft is processed the maps are exactly the
ones below, its top-edge neighbour topRight also has radius 0, and the top
edge contributes the term 0 — not the edge length 100 the claim asserts. -/
theorem zero_zero_edge_term_counterexample :
    cornerBudgetTerm (fun c => if c = CornerId.bottomRight then 40 else 0)
        (fun c => if c = CornerId.bottomRight then 100 else -1) 0
        (CornerId.topRight, EdgeOrientation.top) 100 100 = 0 ∧
    sideLen EdgeOrientation.top 100 100 = 100 ∧
    cornerBudgetTerm (fun c => if c = CornerId.bottomRight then 40 else 0)
        (fun c => if c = CornerId.bottomRight then 100 else -1) 0
        (CornerId.topRight, EdgeOrientation.top) 100 100 ≠
      sideLen EdgeOrientation.top 100 100 := by
  have h0 : cornerBudgetTerm
      (fun c => if c = CornerId.bottomRight then (40 : ℝ) else 0)
      (fun c => if c = CornerId.bottomRight then (100 : ℝ) else -1) 0
      (CornerId.topRight, EdgeOrientation.top) 100 100 = 0 := by
    rw [cornerBudgetTerm, if_pos ⟨rfl, rfl⟩]
  refine ⟨h0, rfl, ?_⟩
  rw [h0]
  norm_num [sideLen]

/-- C6 (amended): when both the corner's snapshot radius and the adjacent
corner's current radius are 0, the edge contributes the term 0 (not the
edge length) to the minimum that determines the corner's budget. -/
theorem zero_zero_edge_term_eq_zero (rm bm : CornerId → ℝ) (radius : ℝ)
    (adj : CornerId × EdgeOrientation) (w h : ℝ) (h0 : radius = 0)
    (h1 : rm adj.1 = 0) : cornerBudgetTerm rm bm radius adj w h = 0 := by
  rw [cornerBudgetTerm, if_pos ⟨h0, h1⟩]

theorem zero_zero_edge_term_eq_zero_witness :
    ((0 : ℝ) = 0) ∧ cornerBudgetTerm (fun _ => 0) (fun _ => -1) 0
      (CornerId.bottomLeft, EdgeOrientation.bottom) 50 80 = 0 :=
  ⟨rfl, zero_zero_edge_term_eq_zero _ _ _ _ _ _ rfl rfl⟩

/-- C7 (amended): every numeric coordinate emitted inside the four corner
trace segments (the only coordinates routed through `formatSegment`) is
rounded to 4 decimal digits; the move/line connector coordinates are not. -/
theorem trace_tokens_round4 (patch : BezierPatch) (x : ℝ) :
    (SvgTok.num x ∈ traceTopRight patch → isRound4 x) ∧
    (SvgTok.num x ∈ traceBottomRight patch → isRound4 x) ∧
    (SvgTok.num x ∈ traceBottomLeft patch → isRound4 x) ∧
    (SvgTok.num x ∈ traceTopLeft patch → isRound4 x) := by
  by_cases h : patch.cornerRadius = 0
  · refine ⟨?_, ?_, ?_, ?_⟩ <;> intro hmem <;>
      simp [traceTopRight, traceBottomRight, traceBottomLeft, traceTopLeft, h]
        at hmem <;>
      exact hmem ▸ isRound4_jsToFixed _
  · refine ⟨?_, ?_, ?_, ?_⟩ <;> intro hmem <;>
      simp [traceTopRight, traceBottomRight, traceBottomLeft, traceTopLeft, h]
        at hmem <;>
      · repeat' rcases hmem with rfl | hmem
        all_goals try subst hmem
        all_goals first
          | exact isRound4_jsToFixed _
          | exact isRound4_neg (isRound4_jsToFixed _)

theorem trace_tokens_round4_witness :
    SvgTok.num 0 ∈ traceTopRight zeroPatch ∧ isRound4 0 := by
  have hmem : SvgTok.num 0 ∈ traceTopRight zeroPatch := by
    simp [traceTopRight, zeroPatch, jsToFixed_zero]
  exact ⟨hmem, (trace_tokens_round4 zeroPatch 0).1 hmem⟩

/-- C4: when the four resolved radii are equal and nonzero,
`buildSquirclePath` (from the initial empty caches) skips the normalizer:
it uses budget `min(width, height) / 2` and effective radius
`min(radius, budget)` for every corner. -/
theorem equal_radii_fast_path (i : SquirclePathInput) (r : ℝ)
    (htl : resolvedTopLeft i = r) (htr : resolvedTopRight i = r)
    (hbr : resolvedBottomRight i = r) (hbl : resolvedBottomLeft i = r)
    (hr : r ≠ 0) :
    (buildSquirclePath i initialState).1 =
      joinCornerProfiles i.width i.height
        (computeCornerProfile (min r (min i.width i.height / 2))
          i.cornerSmoothing i.preserveSmoothing (min i.width i.height / 2))
        (computeCornerProfile (min r (min i.width i.height / 2))
          i.cornerSmoothing i.preserveSmoothing (min i.width i.height / 2))
        (computeCornerProfile (min r (min i.width i.height / 2))
          i.cornerSmoothing i.preserveSmoothing (min i.width i.height / 2))
        (computeCornerProfile (min r (min i.width i.height / 2))
          i.cornerSmoothing i.preserveSmoothing (min i.width i.height / 2)) := by
  have hall : allRadiiEqual i := by
    unfold allRadiiEqual
    rw [htl, htr, hbr, hbl]
    exact ⟨rfl, rfl, rfl, rfl⟩
  have hz : ¬ resolvedTopLeft i = 0 := by rw [htl]; exact hr
  simp only [buildSquirclePath, initialState, lookupEntries, if_pos hall,
    if_neg hz, computeCornerProfileCached, profileOf, htl]
  rw [if_neg hr]

theorem equal_radii_fast_path_witness :
    resolvedTopLeft ⟨40, none, none, none, none, 0.6, 100, 100, false⟩ = 40 ∧
    (40 : ℝ) ≠ 0 ∧
    (buildSquirclePath ⟨40, none, none, none, none, 0.6, 100, 100, false⟩
        initialState).1 =
      joinCornerProfiles 100 100
        (computeCornerProfile (min 40 (min 100 100 / 2)) 0.6 false (min 100 100 / 2))
        (computeCornerProfile (min 40 (min 100 100 / 2)) 0.6 false (min 100 100 / 2))
        (computeCornerProfile (min 40 (min 100 100 / 2)) 0.6 false (min 100 100 / 2))
        (computeCornerProfile (min 40 (min 100 100 / 2)) 0.6 false (min 100 100 / 2)) :=
  ⟨rfl, by norm_num,
    equal_radii_fast_path ⟨40, none, none, none, none, 0.6, 100, 100, false⟩ 40
      rfl rfl rfl rfl (by norm_num)⟩

/-- C5: when the four resolved radii are all 0, `buildSquirclePath` (from
the initial empty caches) returns exactly the four-line closed rectangle
`M <w> 0 L <w> <h> L 0 <h> L 0 0 Z`. -/
theorem zero_radii_rectangle (i : SquirclePathInput)
    (htl : resolvedTopLeft i = 0) (htr : resolvedTopRight i = 0)
    (hbr : resolvedBottomRight i = 0) (hbl : resolvedBottomLeft i = 0) :
    (buildSquirclePath i initialState).1 =
      [.cmd "M", .num i.width, .cmd "0 L", .num i.width, .num i.height,
        .cmd "L 0", .num i.height, .cmd "L 0 0 Z"] := by
  have hall : allRadiiEqual i := by
    unfold allRadiiEqual
    rw [htl, htr, hbr, hbl]
    exact ⟨rfl, rfl, rfl, rfl⟩
  simp only [buildSquirclePath, initialState, lookupEntries, if_pos hall,
    if_pos htl, rectangleTokens]

theorem zero_radii_rectangle_witness :
    resolvedTopLeft ⟨0, none, none, none, none, 0.6, 3, 4, false⟩ = 0 ∧
    (buildSquirclePath ⟨0, none, none, none, none, 0.6, 3, 4, false⟩
        initialState).1 =
      [.cmd "M", .num 3, .cmd "0 L", .num 3, .num 4, .cmd "L 0", .num 4,
        .cmd "L 0 0 Z"] :=
  ⟨rfl, zero_radii_rectangle ⟨0, none, none, none, none, 0.6, 3, 4, false⟩
    rfl rfl rfl rfl⟩

/-- Every `buildSquirclePath` call leaves its own output stored under its
own cache key. -/
theorem buildSquirclePath_stores (i : SquirclePathInput) (st : SquircleState) :
    lookupEntries (buildSquirclePath i st).2.pathCache (composeCacheKey i) =
      some ((buildSquirclePath i st).1) := by
  rcases hc : lookupEntries st.pathCache (composeCacheKey i) with _ | v
  · by_cases hall : allRadiiEqual i
    · by_cases hz : resolvedTopLeft i = 0
      · simp [buildSquirclePath, hc, hall, hz, lookupEntries_storeCachedPath_self]
      · simp [buildSquirclePath, hc, hall, hz, lookupEntries_storeCachedPath_self]
    · simp [buildSquirclePath, hc, hall, lookupEntries_storeCachedPath_self]
  · simp [buildSquirclePath, hc]

/-- A cache hit returns the stored path and leaves the state untouched. -/
theorem buildSquirclePath_hit (i : SquirclePathInput) (st : SquircleState)
    (v : List SvgTok)
    (hv : lookupEntries st.pathCache (composeCacheKey i) = some v) :
    buildSquirclePath i st = (v, st) := by
  simp [buildSquirclePath, hv]

/-- C10: two consecutive calls whose inputs produce the same cache key
(equal rounded components) make the second call replay the stored string
of the first call, with the caches left untouched by the second call. -/
theorem cache_key_replay (i1 i2 : SquirclePathInput) (st : SquircleState)
    (hkey : composeCacheKey i1 = composeCacheKey i2) :
    (buildSquirclePath i2 (buildSquirclePath i1 st).2).1 =
      (buildSquirclePath i1 st).1 ∧
    lookupEntries (buildSquirclePath i1 st).2.pathCache (composeCacheKey i2) =
      some ((buildSquirclePath i1 st).1) ∧
    (buildSquirclePath i2 (buildSquirclePath i1 st).2).2 =
      (buildSquirclePath i1 st).2 := by
  have hstore := buildSquirclePath_stores i1 st
  rw [hkey] at hstore
  have hhit := buildSquirclePath_hit i2 (buildSquirclePath i1 st).2
    ((buildSquirclePath i1 st).1) hstore
  exact ⟨by rw [hhit], hstore, by rw [hhit]⟩

theorem cache_key_replay_witness :
    composeCacheKey ⟨0, none, none, none, none, 0.5, 30, 20, false⟩ =
      composeCacheKey ⟨0, none, none, none, none, 0.5, 30, 20, false⟩ ∧
    (buildSquirclePath ⟨0, none, none, none, none, 0.5, 30, 20, false⟩
        (buildSquirclePath ⟨0, none, none, none, none, 0.5, 30, 20, false⟩
          initialState).2).1 =
      (buildSquirclePath ⟨0, none, none, none, none, 0.5, 30, 20, false⟩
        initialState).1 :=
  ⟨rfl, (cache_key_replay ⟨0, none, none, none, none, 0.5, 30, 20, false⟩
    ⟨0, none, none, none, none, 0.5, 30, 20, false⟩ initialState rfl).1⟩

/-- One memoized corner-profile call: if every cached value under this
query's key is the query's pure profile, the call returns the pure profile,
and the updated cache stays consistent for later key-injective queries. -/
theorem computeCornerProfileCached_consistent (q : BezierPatchInput)
    (pc : ProfileCache)
    (hq : ∀ v, lookupEntries pc (profileKey q) = some v → v = profileOf q) :
    (computeCornerProfileCached q pc).1 = profileOf q ∧
    ∀ q', (profileKey q' = profileKey q → q' = q) →
      (∀ v, lookupEntries pc (profileKey q') = some v → v = profileOf q') →
      ∀ v, lookupEntries (computeCornerProfileCached q pc).2 (profileKey q') =
        some v → v = profileOf q' := by
  rcases hc : lookupEntries pc (profileKey q) with _ | v0
  · constructor
    · simp [computeCornerProfileCached, hc]
    · intro q' hkq hq' v hv
      simp only [computeCornerProfileCached, hc] at hv
      by_cases hk : profileKey q' = profileKey q
      · have hq'q := hkq hk
        subst hq'q
        rw [lookupEntries_setEntry_self] at hv
        exact (Option.some_inj.mp hv).symm
      · rw [lookupEntries_setEntry_ne _ _ _ _ hk] at hv
        exact hq' v hv
  · constructor
    · simp [computeCornerProfileCached, hc, hq v0 hc]
    · intro q' hkq hq' v hv
      simp only [computeCornerProfileCached, hc] at hv
      exact hq' v hv

/-- Threading the consistency through the four sequential corner-profile
calls of the general branch. -/
theorem fourQueries_consistent (pc : ProfileCache)
    (q1 q2 q3 q4 : BezierPatchInput)
    (hp : ∀ q ∈ [q1, q2, q3, q4], ∀ v,
      lookupEntries pc (profileKey q) = some v → v = profileOf q)
    (hinj : ([q1, q2, q3, q4]).Pairwise
      (fun a b => profileKey a = profileKey b → a = b)) :
    (computeCornerProfileCached q1 pc).1 = profileOf q1 ∧
    (computeCornerProfileCached q2 (computeCornerProfileCached q1 pc).2).1 =
      profileOf q2 ∧
    (computeCornerProfileCached q3 (computeCornerProfileCached q2
      (computeCornerProfileCached q1 pc).2).2).1 = profileOf q3 ∧
    (computeCornerProfileCached q4 (computeCornerProfileCached q3
      (computeCornerProfileCached q2
        (computeCornerProfileCached q1 pc).2).2).2).1 = profileOf q4 := by
  obtain ⟨h1s, hinj2⟩ := List.pairwise_cons.mp hinj
  obtain ⟨h2s, hinj3⟩ := List.pairwise_cons.mp hinj2
  obtain ⟨h3s, _⟩ := List.pairwise_cons.mp hinj3
  have s1 := computeCornerProfileCached_consistent q1 pc (hp q1 (by simp))
  have hq2 := s1.2 q2 (fun hk => (h1s q2 (by simp) hk.symm).symm) (hp q2 (by simp))
  have s2 := computeCornerProfileCached_consistent q2 _ hq2
  have hq3a := s1.2 q3 (fun hk => (h1s q3 (by simp) hk.symm).symm) (hp q3 (by simp))
  have hq3 := s2.2 q3 (fun hk => (h2s q3 (by simp) hk.symm).symm) hq3a
  have s3 := computeCornerProfileCached_consistent q3 _ hq3
  have hq4a := s1.2 q4 (fun hk => (h1s q4 (by simp) hk.symm).symm) (hp q4 (by simp))
  have hq4b := s2.2 q4 (fun hk => (h2s q4 (by simp) hk.symm).symm) hq4a
  have hq4 := s3.2 q4 (fun hk => (h3s q4 (by simp) hk.symm).symm) hq4b
  have s4 := computeCornerProfileCached_consistent q4 _ hq4
  exact ⟨s1.1, s2.1, s3.1, s4.1⟩

/-- C3 (amended): caching is transparent provided the consulted entries are
consistent: the path cache has no entry under this input's key, every
profile-cache entry under a key of one of this input's profile queries
stores that query's pure profile, and no two distinct profile queries of
this input collide on their rounded cache key.  Then the memoized
`buildSquirclePath` returns exactly the cache-free pipeline output. -/
theorem cache_transparent_of_consistent (i : SquirclePathInput)
    (st : SquircleState)
    (hpath : lookupEntries st.pathCache (composeCacheKey i) = none)
    (hprof : ∀ q ∈ profileQueries i, ∀ v,
      lookupEntries st.profileCache (profileKey q) = some v → v = profileOf q)
    (hinj : (profileQueries i).Pairwise
      (fun a b => profileKey a = profileKey b → a = b)) :
    (buildSquirclePath i st).1 = squirclePipeline i := by
  by_cases hall : allRadiiEqual i
  · by_cases hz : resolvedTopLeft i = 0
    · simp [buildSquirclePath, squirclePipeline, hpath, hall, hz]
    · have hq : (⟨min (resolvedTopLeft i) (min i.width i.height / 2),
          i.cornerSmoothing, i.preserveSmoothing, min i.width i.height / 2⟩ :
            BezierPatchInput) ∈ profileQueries i := by
        simp [profileQueries, hall, hz]
      have hc := computeCornerProfileCached_consistent _ st.profileCache
        (hprof _ hq)
      simp only [buildSquirclePath, squirclePipeline, hpath, if_pos hall,
        if_neg hz]
      rw [hc.1]
      rfl
  · have hplist : profileQueries i = [
        ⟨(normalizeCorners (resolvedTopLeft i) (resolvedTopRight i)
            (resolvedBottomRight i) (resolvedBottomLeft i) i.width i.height
            .topLeft).radius, i.cornerSmoothing, i.preserveSmoothing,
          (normalizeCorners (resolvedTopLeft i) (resolvedTopRight i)
            (resolvedBottomRight i) (resolvedBottomLeft i) i.width i.height
            .topLeft).roundingAndSmoothingBudget⟩,
        ⟨(normalizeCorners (resolvedTopLeft i) (resolvedTopRight i)
            (resolvedBottomRight i) (resolvedBottomLeft i) i.width i.height
            .topRight).radius, i.cornerSmoothing, i.preserveSmoothing,
          (normalizeCorners (resolvedTopLeft i) (resolvedTopRight i)
            (resolvedBottomRight i) (resolvedBottomLeft i) i.width i.height
            .topRight).roundingAndSmoothingBudget⟩,
        ⟨(normalizeCorners (resolvedTopLeft i) (resolvedTopRight i)
            (resolvedBottomRight i) (resolvedBottomLeft i) i.width i.height
            .bottomRight).radius, i.cornerSmoothing, i.preserveSmoothing,
          (normalizeCorners (resolvedTopLeft i) (resolvedTopRight i)
            (resolvedBottomRight i) (resolvedBottomLeft i) i.width i.height
            .bottomRight).roundingAndSmoothingBudget⟩,
        ⟨(normalizeCorners (resolvedTopLeft i) (resolvedTopRight i)
            (resolvedBottomRight i) (resolvedBottomLeft i) i.width i.height
            .bottomLeft).radius, i.cornerSmoothing, i.preserveSmoothing,
          (normalizeCorners (resolvedTopLeft i) (resolvedTopRight i)
            (resolvedBottomRight i) (resolvedBottomLeft i) i.width i.height
            .bottomLeft).roundingAndSmoothingBudget⟩] := by
      simp [profileQueries, hall]
    rw [hplist] at hprof hinj
    have hfour := fourQueries_consistent st.profileCache _ _ _ _ hprof hinj
    simp only [buildSquirclePath, squirclePipeline, hpath, if_neg hall]
    rw [hfour.1, hfour.2.1, hfour.2.2.1, hfour.2.2.2]
    rfl

theorem cache_transparent_of_consistent_witness :
    lookupEntries initialState.pathCache
      (composeCacheKey ⟨0, none, none, none, none, 0.5, 7, 9, false⟩) = none ∧
    (buildSquirclePath ⟨0, none, none, none, none, 0.5, 7, 9, false⟩
        initialState).1 =
      squirclePipeline ⟨0, none, none, none, none, 0.5, 7, 9, false⟩ := by
  have hq0 : profileQueries ⟨0, none, none, none, none, 0.5, 7, 9, false⟩ = [] := by
    simp [profileQueries, allRadiiEqual, resolvedTopLeft, resolvedTopRight,
      resolvedBottomRight, resolvedBottomLeft]
  refine ⟨rfl, cache_transparent_of_consistent _ initialState rfl ?_ ?_⟩
  · intro q hq
    rw [hq0] at hq
    exact absurd hq (List.not_mem_nil q)
  · rw [hq0]
    exact List.Pairwise.nil

/-- C7 counterexample: at width 0.00001 with all radii 0 (a valid input)
the returned path contains the raw coordinate 0.00001 — emitted by the
`M`/`L` connector interpolations — which is not representable with 4
decimal digits, so not every emitted coordinate is rounded to 4 decimals. -/
theorem unrounded_connector_counterexample :
    (0 : ℝ) ≤ 0.00001 ∧ (0 : ℝ) ≤ 1 ∧
    SvgTok.num 0.00001 ∈
      squirclePipeline ⟨0, none, none, none, none, 0, 0.00001, 1, false⟩ ∧
    ¬ isRound4 0.00001 := by
  refine ⟨by norm_num, by norm_num, ?_, ?_⟩
  · have hall : allRadiiEqual ⟨0, none, none, none, none, 0, 0.00001, 1, false⟩ :=
      ⟨rfl, rfl, rfl, rfl⟩
    have hz : resolvedTopLeft ⟨0, none, none, none, none, 0, 0.00001, 1, false⟩ = 0 := rfl
    simp only [squirclePipeline, if_pos hall, if_pos hz, rectangleTokens]
    simp
  · rintro ⟨n, hn⟩
    have hmul : (n : ℝ) = 1 / 10 := by
      field_simp at hn
      linarith
    rcases lt_or_le n 1 with hlt | hge
    · have hn0 : n ≤ 0 := by omega
      have hcast : (n : ℝ) ≤ 0 := by exact_mod_cast hn0
      rw [hmul] at hcast
      norm_num at hcast
    · have hcast : (1 : ℝ) ≤ (n : ℝ) := by exact_mod_cast hge
      rw [hmul] at hcast
      norm_num at hcast

theorem storeCachedPath_nil (k : ℝ × ℝ × ℝ × Bool × ℝ × ℝ × ℝ × ℝ × ℝ)
    (v : List SvgTok) : storeCachedPath [] k v = [(k, v)] := by
  have hcond : ¬ (PATH_CACHE_LIMIT ≤ ([] : PathCache).length ∧
      ¬ containsKey ([] : PathCache) k) := by
    rintro ⟨hlen, _⟩
    simp [PATH_CACHE_LIMIT] at hlen
  unfold storeCachedPath
  rw [if_neg hcond]
  rfl

/-- C3 counterexample: two widths that differ below the 2-decimal cache-key
rounding (0.001 and 0.004, both rounding to 0.00) share a cache key, so the
second call replays the first call's stored path, which differs bit for bit
from the geometry pipeline's output for the second input: with caches
enabled the returned path can depend on the prior call history. -/
theorem cache_transparency_counterexample :
    (buildSquirclePath ⟨0, none, none, none, none, 0, 0.004, 1, false⟩
        (buildSquirclePath ⟨0, none, none, none, none, 0, 0.001, 1, false⟩
          initialState).2).1 ≠
      squirclePipeline ⟨0, none, none, none, none, 0, 0.004, 1, false⟩ := by
  have hall1 : allRadiiEqual ⟨0, none, none, none, none, 0, 0.001, 1, false⟩ :=
    ⟨rfl, rfl, rfl, rfl⟩
  have hall2 : allRadiiEqual ⟨0, none, none, none, none, 0, 0.004, 1, false⟩ :=
    ⟨rfl, rfl, rfl, rfl⟩
  have hz1 : resolvedTopLeft ⟨0, none, none, none, none, 0, 0.001, 1, false⟩ = 0 := rfl
  have hz2 : resolvedTopLeft ⟨0, none, none, none, none, 0, 0.004, 1, false⟩ = 0 := rfl
  have hw1 : jsToFixed 2 ((0.001 : ℝ)) = 0 := by
    unfold jsToFixed
    rw [if_neg (by norm_num)]
    have harg : (10 : ℝ) ^ (2 : ℕ) * 0.001 = 1 / 10 := by norm_num
    rw [harg, round_eq]
    have hfloor : (⌊(1 : ℝ) / 10 + 1 / 2⌋ : ℤ) = 0 := by
      apply Int.floor_eq_zero_iff.mpr
      constructor <;> norm_num
    rw [hfloor]
    norm_num
  have hw2 : jsToFixed 2 ((0.004 : ℝ)) = 0 := by
    unfold jsToFixed
    rw [if_neg (by norm_num)]
    have harg : (10 : ℝ) ^ (2 : ℕ) * 0.004 = 2 / 5 := by norm_num
    rw [harg, round_eq]
    have hfloor : (⌊(2 : ℝ) / 5 + 1 / 2⌋ : ℤ) = 0 := by
      apply Int.floor_eq_zero_iff.mpr
      constructor <;> norm_num
    rw [hfloor]
    norm_num
  have hkeys : composeCacheKey ⟨0, none, none, none, none, 0, 0.001, 1, false⟩ =
      composeCacheKey ⟨0, none, none, none, none, 0, 0.004, 1, false⟩ := by
    simp only [composeCacheKey, resolvedTopLeft, resolvedTopRight,
      resolvedBottomRight, resolvedBottomLeft, Option.getD_none, hw1, hw2]
  have hbuild1 : buildSquirclePath ⟨0, none, none, none, none, 0, 0.001, 1, false⟩
      initialState =
      ([.cmd "M", .num 0.001, .cmd "0 L", .num 0.001, .num 1,
          .cmd "L 0", .num 1, .cmd "L 0 0 Z"],
        ⟨[(composeCacheKey ⟨0, none, none, none, none, 0, 0.001, 1, false⟩,
            [.cmd "M", .num 0.001, .cmd "0 L", .num 0.001, .num 1,
              .cmd "L 0", .num 1, .cmd "L 0 0 Z"])], []⟩) := by
    simp only [buildSquirclePath, initialState, lookupEntries, if_pos hall1,
      if_pos hz1, storeCachedPath_nil, rectangleTokens]
  have hlook : lookupEntries (buildSquirclePath
      ⟨0, none, none, none, none, 0, 0.001, 1, false⟩ initialState).2.pathCache
      (composeCacheKey ⟨0, none, none, none, none, 0, 0.004, 1, false⟩) =
      some [.cmd "M", .num 0.001, .cmd "0 L", .num 0.001, .num 1,
        .cmd "L 0", .num 1, .cmd "L 0 0 Z"] := by
    rw [hbuild1]
    show lookupEntries [(composeCacheKey _, _)] _ = _
    rw [lookupEntries, if_pos hkeys]
  have hhit := buildSquirclePath_hit
    ⟨0, none, none, none, none, 0, 0.004, 1, false⟩
    (buildSquirclePath ⟨0, none, none, none, none, 0, 0.001, 1, false⟩
      initialState).2 _ hlook
  rw [hhit]
  have hpipe : squirclePipeline ⟨0, none, none, none, none, 0, 0.004, 1, false⟩ =
      [.cmd "M", .num 0.004, .cmd "0 L", .num 0.004, .num 1,
        .cmd "L 0", .num 1, .cmd "L 0 0 Z"] := by
    simp only [squirclePipeline, if_pos hall2, if_pos hz2, rectangleTokens]
  rw [hpipe]
  intro hcontra
  injection hcontra with h1 h2
  injection h2 with h3 h4
  injection h3 with h5
  norm_num at h5

end SquircleSpec
